import Mathlib

/-!
Verification of the tag-generation engine of `obsidian-ai-tagger`.

The TypeScript sources are shallowly embedded below:

* `src/providers/provider-factory.ts` (`ProviderFactory`): the provider
  pool with cooldowns, fallback, reuse and LRU eviction.  JavaScript
  `Map`s are embedded as insertion-ordered association lists, JavaScript
  `Set`s as duplicate-free lists, `Date.now()` as an explicit `now : Nat`
  argument, and provider object identity as a `uid : Nat` drawn from an
  allocation counter in the factory state.
* `src/services/file-processor.ts` (`FileProcessor`): `processFile`,
  `enhanceTagConsistency`, `formatTags` and the batch loops
  (`processAllFiles` / `processDirectory`).  External collaborators
  (vault read, the two LLM calls, the frontmatter rewrite) are embedded
  as an oracle of outcome flags; thrown exceptions are the `…Throws`
  flags, and the `try`/`catch` structure of the source is mirrored by
  the branching.  The per-run observable behaviour is returned as a
  list of events (acquire/release/call/report/write).
* `src/utils/tag-utils.ts` (`TagUtils`): `findSimilarTags` and the
  dynamic-programming `levenshteinDistance` (embedded row by row).
* `src/utils/file-utils.ts` (`FileUtils`): `createContentWithTags`.

Strings are embedded as `List Char` (written `"…".data`).
-/

namespace AITagger

/-- The `LLMProvider` enum from `src/types.ts`. -/
inductive LLMProvider where
  | claude
  | openai
deriving DecidableEq, Repr

/-- The string value of each enum member (`"claude"` / `"openai"`). -/
def LLMProvider.str : LLMProvider → List Char
  | .claude => "claude".data
  | .openai => "openai".data

/-- The `AIExcerptSettings` interface from `src/types.ts` (the
`promptType` field never influences the embedded behaviour and is
omitted).  An empty key list embeds a missing/empty API key (falsy in
the source's `if (!settings.claudeApiKey)` checks). -/
structure AIExcerptSettings where
  provider : LLMProvider
  claudeApiKey : List Char
  claudeModel : List Char
  openaiApiKey : List Char
  openaiModel : List Char
  tagPfx : List Char

/-- A provider instance (`ClaudeProvider` / `OpenAIProvider` object).
`uid` embeds JavaScript object identity: each `new …Provider(…)` gets a
fresh `uid` from the factory's allocation counter. -/
structure ProviderInst where
  kind : LLMProvider
  uid : Nat
deriving DecidableEq, Repr

/-- An entry of `ProviderFactory.activeProviders` (provider, lastUsed, id). -/
structure PoolEntry where
  inst : ProviderInst
  lastUsed : Nat
  id : List Char
deriving DecidableEq, Repr

/-- The mutable static state of `ProviderFactory`:
`providerCooldowns` (a `Record<string, number>` keyed by provider kind),
`activeProviders` (a JavaScript `Map`, i.e. an insertion-ordered
association list with unique keys), `failedProviders` (a `Set`), and the
allocation counter for provider-object identities. -/
structure FactoryState where
  providerCooldowns : LLMProvider → Option Nat
  activeProviders : List (List Char × PoolEntry)
  failedProviders : List LLMProvider
  nextUid : Nat

/-- The initial (module-load) state of `ProviderFactory`. -/
def initialFactoryState : FactoryState :=
  { providerCooldowns := fun _ => none
    activeProviders := []
    failedProviders := []
    nextUid := 0 }

/-- `cooldownDuration` (60000 ms). -/
def cooldownDuration : Nat := 60000

/-- `maxActiveProviders` (2). -/
def maxActiveProviders : Nat := 2

/-- JavaScript `Map.prototype.set`: replace in place if the key is
present, otherwise append. -/
def mapSet (m : List (List Char × PoolEntry)) (k : List Char) (v : PoolEntry) :
    List (List Char × PoolEntry) :=
  match m with
  | [] => [(k, v)]
  | (k', v') :: rest =>
      if k' = k then (k, v) :: rest else (k', v') :: mapSet rest k v

/-- JavaScript `Map.prototype.delete` (keys are unique, so deleting the
first occurrence is exact). -/
def mapDelete (m : List (List Char × PoolEntry)) (k : List Char) :
    List (List Char × PoolEntry) :=
  match m with
  | [] => []
  | (k', v') :: rest =>
      if k' = k then rest else (k', v') :: mapDelete rest k

/-- JavaScript `Set.prototype.add` for `failedProviders`. -/
def setAddKind (s : List LLMProvider) (k : LLMProvider) : List LLMProvider :=
  if k ∈ s then s else s ++ [k]

/-- `ProviderFactory.isProviderInCooldown`: true when a cooldown expiry
is recorded for the kind and `Date.now()` is still before it. -/
def isProviderInCooldown (st : FactoryState) (k : LLMProvider) (now : Nat) : Bool :=
  match st.providerCooldowns k with
  | some untilTime => now < untilTime
  | none => false

/-- `ProviderFactory.setProviderCooldown`. -/
def setProviderCooldown (st : FactoryState) (k : LLMProvider) (now : Nat) :
    FactoryState :=
  { st with providerCooldowns :=
      fun j => if j = k then some (now + cooldownDuration) else st.providerCooldowns j }

/-- `ProviderFactory.getProviderId`: the string
`provider + "-" + model` for the kind's configured model. -/
def getProviderId (s : AIExcerptSettings) : List Char :=
  s.provider.str ++ "-".data ++
    (match s.provider with
     | .claude => s.claudeModel
     | .openai => s.openaiModel)

/-- The key of a fallback pool entry, `provider + "-fallback-" + Date.now()`. -/
def fallbackProviderId (k : LLMProvider) (now : Nat) : List Char :=
  k.str ++ "-fallback-".data ++ (Nat.repr now).data

/-- `ProviderFactory.getExistingProvider`: scan `activeProviders` in
insertion order for the first entry whose provider instance is of the
requested class, refresh its `lastUsed`, and return it. -/
def getExistingProvider (m : List (List Char × PoolEntry)) (k : LLMProvider)
    (now : Nat) : Option ProviderInst × List (List Char × PoolEntry) :=
  match m with
  | [] => (none, [])
  | (key, e) :: rest =>
      if e.inst.kind = k then
        (some e.inst, (key, { e with lastUsed := now }) :: rest)
      else
        match getExistingProvider rest k now with
        | (r, rest') => (r, (key, e) :: rest')

/-- The fold inside `cleanupOldestProvider` that locates the entry with
the strictly smallest `lastUsed` (first wins on ties, as in the source's
`providerData.lastUsed < oldestTime` scan starting from `Infinity`). -/
def oldestEntry (m : List (List Char × PoolEntry)) : Option (List Char × Nat) :=
  m.foldl
    (fun acc kv =>
      match acc with
      | none => some (kv.1, kv.2.lastUsed)
      | some (bestId, bestTime) =>
          if kv.2.lastUsed < bestTime then some (kv.1, kv.2.lastUsed)
          else some (bestId, bestTime))
    none

/-- `ProviderFactory.cleanupOldestProvider`. -/
def cleanupOldestProvider (st : FactoryState) : FactoryState :=
  if st.activeProviders = [] then st
  else
    match oldestEntry st.activeProviders with
    | some (oldestId, _) =>
        { st with activeProviders := mapDelete st.activeProviders oldestId }
    | none => st

/-- The `FallbackResult` interface of `provider-factory.ts`. -/
structure FallbackResult where
  provider : Option ProviderInst
  fallbackType : Option LLMProvider
  needsConfiguration : Bool
  success : Bool

/-- The API key configured for a kind. -/
def apiKeyFor (s : AIExcerptSettings) : LLMProvider → List Char
  | .claude => s.claudeApiKey
  | .openai => s.openaiApiKey

/-- The model configured for a kind. -/
def modelFor (s : AIExcerptSettings) : LLMProvider → List Char
  | .claude => s.claudeModel
  | .openai => s.openaiModel

/-- The hard-coded one-to-one fallback mapping (Claude ↔ OpenAI). -/
def fallbackKindOf : LLMProvider → LLMProvider
  | .claude => .openai
  | .openai => .claude

/-- `ProviderFactory.createFallbackProvider`: for the kind opposite to
the failed primary, refuse if that kind is itself in cooldown, refuse
(flagging `needsConfiguration`) if its API key is missing, otherwise
construct a fresh instance, store it under a `…-fallback-…` id and
report success. -/
def createFallbackProvider (s : AIExcerptSettings) (primary : LLMProvider)
    (now : Nat) (st : FactoryState) : FallbackResult × FactoryState :=
  let fbKind := fallbackKindOf primary
  if isProviderInCooldown st fbKind now then
    ({ provider := none, fallbackType := some fbKind,
       needsConfiguration := false, success := false }, st)
  else if apiKeyFor s fbKind ≠ [] then
    let inst : ProviderInst := { kind := fbKind, uid := st.nextUid }
    let entry : PoolEntry :=
      { inst := inst, lastUsed := now, id := fallbackProviderId fbKind now }
    ({ provider := some inst, fallbackType := some fbKind,
       needsConfiguration := false, success := true },
     { st with
        activeProviders := mapSet st.activeProviders (fallbackProviderId fbKind now) entry
        nextUid := st.nextUid + 1 })
  else
    ({ provider := none, fallbackType := some fbKind,
       needsConfiguration := true, success := false }, st)

/-- The tail of `createProvider` after the failed/cooldown checks:
enforce the `maxActiveProviders` bound (reuse a same-kind instance if
one exists, otherwise evict the oldest) and then construct and store the
new instance, refusing when the kind's API key is missing. -/
def createProviderCore (s : AIExcerptSettings) (now : Nat) (st : FactoryState) :
    Option ProviderInst × FactoryState :=
  let step2 : Option ProviderInst × FactoryState :=
    if st.activeProviders.length ≥ maxActiveProviders then
      match getExistingProvider st.activeProviders s.provider now with
      | (some p, m') => (some p, { st with activeProviders := m' })
      | (none, _) => (none, cleanupOldestProvider st)
    else (none, st)
  match step2 with
  | (some p, st') => (some p, st')
  | (none, st') =>
      if apiKeyFor s s.provider = [] then (none, st')
      else
        let inst : ProviderInst := { kind := s.provider, uid := st'.nextUid }
        let entry : PoolEntry :=
          { inst := inst, lastUsed := now, id := getProviderId s }
        (some inst,
         { st' with
            activeProviders := mapSet st'.activeProviders (getProviderId s) entry
            nextUid := st'.nextUid + 1 })

/-- `ProviderFactory.createProvider`: refuse outright if the requested
kind is in `failedProviders`; if it is in cooldown, try the fallback
provider and return it when available; then fall through to
`createProviderCore`. -/
def createProvider (s : AIExcerptSettings) (now : Nat) (st : FactoryState) :
    Option ProviderInst × FactoryState :=
  if s.provider ∈ st.failedProviders then (none, st)
  else if isProviderInCooldown st s.provider now then
    match createFallbackProvider s s.provider now st with
    | (fb, st') =>
        match fb.provider with
        | some p => (some p, st')
        | none => createProviderCore s now st'
  else createProviderCore s now st

/-- `ProviderFactory.reportProviderFailure`: put the kind in cooldown
and add it to `failedProviders`. -/
def reportProviderFailure (st : FactoryState) (k : LLMProvider) (now : Nat) :
    FactoryState :=
  let st' := setProviderCooldown st k now
  { st' with failedProviders := setAddKind st'.failedProviders k }

/-- The scan inside `releaseProvider`: refresh `lastUsed` of the first
entry holding this exact instance. -/
def releaseGo (p : ProviderInst) (now : Nat) :
    List (List Char × PoolEntry) → List (List Char × PoolEntry)
  | [] => []
  | (key, e) :: rest =>
      if e.inst = p then (key, { e with lastUsed := now }) :: rest
      else (key, e) :: releaseGo p now rest

/-- `ProviderFactory.releaseProvider`: find the entry holding this
instance and refresh its `lastUsed` (the instance is not destroyed). -/
def releaseProvider (st : FactoryState) (p : ProviderInst) (now : Nat) :
    FactoryState :=
  { st with activeProviders := releaseGo p now st.activeProviders }

/-! ### The per-document pipeline (`FileProcessor.processFile`) -/

/-- The shape of a document as `processFile` classifies it: a markdown
file or not (`file.extension !== "md"`), and whether
`FileUtils.extractFrontmatter` finds a well-formed frontmatter block. -/
structure DocShape where
  isMd : Bool
  hasFrontmatter : Bool

/-- Outcomes of the external collaborator calls made during one
`processFile` run: whether `vault.read` throws, whether the primary
provider's `generateTags` throws, whether the frontmatter rewrite
(`vault.process` / `fileManager.processFrontMatter`) throws, whether the
fallback provider's `generateTags` throws, and whether the rewrite after
a successful fallback call throws. -/
structure RunOracle where
  readThrows : Bool
  primaryThrows : Bool
  writeThrows : Bool
  fallbackThrows : Bool
  fallbackWriteThrows : Bool

/-- Observable events of one `processFile` run: provider acquisition
(by instance uid), release, the two `generateTags` calls, the
`reportProviderFailure` call, and a completed document rewrite. -/
inductive Event where
  | acquired (uid : Nat)
  | released (uid : Nat)
  | primaryCall
  | fallbackCall
  | reportedFailure (k : LLMProvider)
  | wrote
deriving DecidableEq, Repr

/-- Result of one `processFile` run: the factory state left behind, the
event trace, and the number of completed document rewrites. -/
structure RunResult where
  state : FactoryState
  events : List Event
  writes : Nat

/-- The `catch (providerError)` block of `processFile` (frontmatter
documents whose `generateTags` call or rewrite threw): report the
primary failure, try the fallback provider, and on a usable fallback run
exactly one fallback call followed by the rewrite.  Note that the
primary instance `p` is not released anywhere in this block. -/
def handlePrimaryFailure (s : AIExcerptSettings) (o : RunOracle) (now : Nat)
    (st1 : FactoryState) (p : ProviderInst) : RunResult :=
  let st2 := reportProviderFailure st1 s.provider now
  match createFallbackProvider s s.provider now st2 with
  | (fb, st3) =>
    if fb.success = true then
      match fb.provider with
      | some q =>
        if o.fallbackThrows then
          ⟨releaseProvider st3 q now,
           [.acquired p.uid, .primaryCall, .reportedFailure s.provider,
            .acquired q.uid, .fallbackCall, .released q.uid], 0⟩
        else if o.fallbackWriteThrows then
          ⟨releaseProvider st3 q now,
           [.acquired p.uid, .primaryCall, .reportedFailure s.provider,
            .acquired q.uid, .fallbackCall, .released q.uid], 0⟩
        else
          ⟨releaseProvider st3 q now,
           [.acquired p.uid, .primaryCall, .reportedFailure s.provider,
            .acquired q.uid, .fallbackCall, .wrote, .released q.uid], 1⟩
      | none =>
        ⟨st3, [.acquired p.uid, .primaryCall, .reportedFailure s.provider], 0⟩
    else
      ⟨st3, [.acquired p.uid, .primaryCall, .reportedFailure s.provider], 0⟩

/-- `FileProcessor.processFile`, embedded branch by branch.  The
source's `try`/`catch` blocks become case splits on the oracle's throw
flags; every path of the source returns (the outermost `catch` swallows
everything), so the embedding is a total function.  `Date.now()` is
frozen to `now` for the duration of the run. -/
def processFile (s : AIExcerptSettings) (doc : DocShape) (o : RunOracle)
    (now : Nat) (st : FactoryState) : RunResult :=
  if doc.isMd = false then ⟨st, [], 0⟩
  else
    match createProvider s now st with
    | (none, st1) => ⟨st1, [], 0⟩
    | (some p, st1) =>
      if o.readThrows then
        -- `vault.read` threw: the outer catch releases the provider.
        ⟨releaseProvider st1 p now, [.acquired p.uid, .released p.uid], 0⟩
      else if doc.hasFrontmatter = false then
        -- no-frontmatter branch: inner try around generateTags + vault.process,
        -- its catch releases the provider and returns.
        if o.primaryThrows then
          ⟨releaseProvider st1 p now,
           [.acquired p.uid, .primaryCall, .released p.uid], 0⟩
        else if o.writeThrows then
          ⟨releaseProvider st1 p now,
           [.acquired p.uid, .primaryCall, .released p.uid], 0⟩
        else
          ⟨releaseProvider st1 p now,
           [.acquired p.uid, .primaryCall, .wrote, .released p.uid], 1⟩
      else
        if o.primaryThrows = false ∧ o.writeThrows = false then
          -- frontmatter branch, success: generateTags + processFrontMatter + release.
          ⟨releaseProvider st1 p now,
           [.acquired p.uid, .primaryCall, .wrote, .released p.uid], 1⟩
        else
          handlePrimaryFailure s o now st1 p

/-- Every acquired handle in a trace is eventually released. -/
def releasedAllB (evs : List Event) : Bool :=
  evs.all fun e =>
    match e with
    | .acquired u => decide ((Event.released u) ∈ evs)
    | _ => true

/-! ### The batch controller (`FileProcessor.processAllFiles` /
`processDirectory`) -/

/-- The inner per-batch loop of `processAllFiles`: each document is
represented by whether its `processFile` call throws; the `try` branch
increments `processed`, the `catch` branch increments `errors`, and
`attempted` instruments how many documents the loop reached. -/
def processBatchDocs : List Bool → Nat → Nat → Nat → Nat × Nat × Nat
  | [], p, e, a => (p, e, a)
  | thr :: rest, p, e, a =>
      if thr then processBatchDocs rest p (e + 1) (a + 1)
      else processBatchDocs rest (p + 1) e (a + 1)

/-- The `batchSize = 5` chunking of the file list (`files.slice(i, i + batchSize)`). -/
def toBatches : List Bool → List (List Bool)
  | [] => []
  | x :: xs => ((x :: xs).take 5) :: toBatches ((x :: xs).drop 5)
termination_by l => l.length
decreasing_by simp; omega

/-- `FileProcessor.processAllFiles`: process the files batch by batch
(the inter-batch delay has no effect on the counts), starting from
`processed = 0`, `errors = 0`. -/
def processAllFiles (files : List Bool) : Nat × Nat × Nat :=
  (toBatches files).foldl
    (fun acc batch => processBatchDocs batch acc.1 acc.2.1 acc.2.2) (0, 0, 0)

/-! ### Sample configurations used by concrete runs -/

/-- A settings value with both providers fully configured, Claude primary. -/
def sampleSettings : AIExcerptSettings :=
  { provider := .claude
    claudeApiKey := "ck".data
    claudeModel := "m1".data
    openaiApiKey := "ok1".data
    openaiModel := "m2".data
    tagPfx := [] }

/-- Settings with Claude configured but no OpenAI key (no fallback available). -/
def noFallbackSettings : AIExcerptSettings :=
  { provider := .claude
    claudeApiKey := "ck".data
    claudeModel := "m1".data
    openaiApiKey := []
    openaiModel := "m2".data
    tagPfx := [] }

/-! ### Preservation lemmas for the factory state -/

theorem cleanupOldestProvider_cooldowns (st : FactoryState) :
    (cleanupOldestProvider st).providerCooldowns = st.providerCooldowns := by
  unfold cleanupOldestProvider
  split
  · rfl
  · split <;> rfl

theorem createProviderCore_cooldowns (s : AIExcerptSettings) (now : Nat)
    (st : FactoryState) :
    ((createProviderCore s now st).2).providerCooldowns = st.providerCooldowns := by
  unfold createProviderCore
  by_cases hlen : st.activeProviders.length ≥ maxActiveProviders
  · simp only [hlen, if_true]
    rcases hg : getExistingProvider st.activeProviders s.provider now with ⟨r, m'⟩
    cases r
    · simp only
      split <;> simp [cleanupOldestProvider_cooldowns st]
    · rfl
  · simp only [hlen, if_false]
    split <;> rfl

theorem createFallbackProvider_cooldowns (s : AIExcerptSettings)
    (k : LLMProvider) (now : Nat) (st : FactoryState) :
    ((createFallbackProvider s k now st).2).providerCooldowns = st.providerCooldowns := by
  by_cases h1 : isProviderInCooldown st (fallbackKindOf k) now
  · simp [createFallbackProvider, h1]
  · by_cases h2 : apiKeyFor s (fallbackKindOf k) = [] <;>
      simp [createFallbackProvider, h1, h2]

theorem createProvider_cooldowns (s : AIExcerptSettings) (now : Nat)
    (st : FactoryState) :
    ((createProvider s now st).2).providerCooldowns = st.providerCooldowns := by
  unfold createProvider
  split
  · rfl
  · split
    · rcases hfb : createFallbackProvider s s.provider now st with ⟨fb, st'⟩
      simp only
      have hc : st'.providerCooldowns = st.providerCooldowns := by
        have := createFallbackProvider_cooldowns s s.provider now st
        rw [hfb] at this
        exact this
      cases fb.provider
      · simp only
        rw [createProviderCore_cooldowns, hc]
      · simpa using hc
    · exact createProviderCore_cooldowns s now st

theorem reportProviderFailure_cooldowns_other (st : FactoryState)
    (k j : LLMProvider) (now : Nat) (h : j ≠ k) :
    (reportProviderFailure st k now).providerCooldowns j = st.providerCooldowns j := by
  simp [reportProviderFailure, setProviderCooldown, h]

theorem fallbackKindOf_ne (k : LLMProvider) : fallbackKindOf k ≠ k := by
  cases k <;> simp [fallbackKindOf]

/-- Claim C1: after `reportProviderFailure(claude)` at time 0 with valid
credentials, `createProvider` returns no provider during the 60-second
cooldown (time 30000) — and still returns no provider after the cooldown
has expired (time 60001, where `isProviderInCooldown` is already false),
because `failedProviders` is never cleared.  This contradicts the
claimed recovery after cooldown expiry. -/
theorem c1_createProvider_still_blocked_after_cooldown :
    (createProvider sampleSettings 30000
        (reportProviderFailure initialFactoryState .claude 0)).1 = none
    ∧ (createProvider sampleSettings 60001
        (reportProviderFailure initialFactoryState .claude 0)).1 = none
    ∧ isProviderInCooldown
        (reportProviderFailure initialFactoryState .claude 0) .claude 60001 = false := by
  refine ⟨?_, ?_, ?_⟩ <;> decide

/-- In the `catch (providerError)` block, every handle acquired other
than the primary instance `p` — i.e. the fallback handle, when one was
obtained — is released before the block returns. -/
theorem handlePrimaryFailure_nonprimary_released (s : AIExcerptSettings)
    (o : RunOracle) (now : Nat) (st1 : FactoryState) (p : ProviderInst)
    (u : Nat)
    (hacq : Event.acquired u ∈ (handlePrimaryFailure s o now st1 p).events)
    (hne : u ≠ p.uid) :
    Event.released u ∈ (handlePrimaryFailure s o now st1 p).events := by
  by_cases hcool : isProviderInCooldown (reportProviderFailure st1 s.provider now)
      (fallbackKindOf s.provider) now
  · unfold handlePrimaryFailure at hacq ⊢
    simp [createFallbackProvider, hcool] at hacq ⊢
    exact absurd hacq hne
  · by_cases hkey : apiKeyFor s (fallbackKindOf s.provider) = []
    · unfold handlePrimaryFailure at hacq ⊢
      simp [createFallbackProvider, hcool, hkey] at hacq ⊢
      exact absurd hacq hne
    · unfold handlePrimaryFailure at hacq ⊢
      by_cases hft : o.fallbackThrows
      · simp [createFallbackProvider, hcool, hkey, hft] at hacq ⊢
        rcases hacq with h | h
        · exact absurd h hne
        · exact h
      · by_cases hfw : o.fallbackWriteThrows
        · simp [createFallbackProvider, hcool, hkey, hft, hfw] at hacq ⊢
          rcases hacq with h | h
          · exact absurd h hne
          · exact h
        · simp [createFallbackProvider, hcool, hkey, hft, hfw] at hacq ⊢
          rcases hacq with h | h
          · exact absurd h hne
          · exact h

/-- Claim C2 (amended): (1) on every completed-rewrite path, on every
no-frontmatter path, and on the `vault.read` failure path, every
provider handle acquired during the run is released back to the pool by
the end of the run; and (2) on **every** run, any handle acquired other
than the primary instance — in particular an acquired fallback handle —
is released.  (The exception, established by the counterexample below,
is the primary handle on the frontmatter primary-failure path.) -/
theorem c2_released_on_good_paths (s : AIExcerptSettings) (doc : DocShape)
    (o : RunOracle) (now : Nat) (st : FactoryState) :
    ((doc.hasFrontmatter = false ∨ o.readThrows = true ∨
        (o.primaryThrows = false ∧ o.writeThrows = false)) →
      releasedAllB (processFile s doc o now st).events = true)
    ∧ (∀ (p : ProviderInst) (st1 : FactoryState) (u : Nat),
        createProvider s now st = (some p, st1) →
        Event.acquired u ∈ (processFile s doc o now st).events →
        u ≠ p.uid →
        Event.released u ∈ (processFile s doc o now st).events) := by
  constructor
  · intro h
    unfold processFile
    by_cases hmd : doc.isMd = false
    · simp [hmd, releasedAllB]
    · simp only [hmd, if_false]
      rcases hcp : createProvider s now st with ⟨r, st1⟩
      cases r with
      | none => simp [releasedAllB]
      | some p =>
        simp only
        by_cases hrd : o.readThrows
        · simp [hrd, releasedAllB]
        · simp only [hrd, if_false]
          rcases h with hfm | hrt | ⟨hp, hw⟩
          · by_cases hp : o.primaryThrows <;> by_cases hw : o.writeThrows <;>
              simp [hfm, hp, hw, releasedAllB]
          · exact absurd hrt hrd
          · by_cases hfm : doc.hasFrontmatter = false <;>
              simp [hfm, hp, hw, releasedAllB]
  · intro p st1 u hcp hacq hne
    revert hacq
    unfold processFile
    rw [hcp]
    by_cases hmd : doc.isMd = false
    · intro hacq
      simp [hmd] at hacq
    · simp only [hmd, if_false]
      by_cases hrd : o.readThrows
      · simp only [hrd, if_true]
        intro hacq
        simp at hacq ⊢
        exact hacq
      · simp only [hrd, if_false]
        by_cases hfm : doc.hasFrontmatter = false
        · simp only [hfm, if_true]
          by_cases hp : o.primaryThrows <;> by_cases hw : o.writeThrows <;>
            (simp only [hp, hw, if_true, if_false, Bool.false_eq_true];
              intro hacq; simp at hacq ⊢; exact hacq)
        · simp only [hfm, if_false]
          by_cases hps : o.primaryThrows = false ∧ o.writeThrows = false
          · simp only [if_pos hps]
            intro hacq
            simp at hacq ⊢
            exact hacq
          · simp only [if_neg hps]
            intro hacq
            exact handlePrimaryFailure_nonprimary_released s o now st1 p u hacq hne

/-- Claim C2, counterexample: a markdown document with frontmatter whose
primary `generateTags` call throws and whose fallback is unconfigured: a
handle is acquired (instance uid 0), yet no release happens on this run
— the acquired handle is not released back to the pool. -/
theorem c2_counterexample_primary_not_released :
    (Event.acquired 0) ∈
      (processFile noFallbackSettings ⟨true, true⟩ ⟨false, true, false, false, false⟩
        0 initialFactoryState).events
    ∧ releasedAllB
        (processFile noFallbackSettings ⟨true, true⟩ ⟨false, true, false, false, false⟩
          0 initialFactoryState).events = false := by
  constructor
  · decide
  · decide

/-- Witness for `c2_released_on_good_paths` at two concrete runs: a
frontmatter document whose primary call and rewrite both succeed (every
acquired handle released), and a frontmatter document whose primary call
fails and whose acquired fallback handle (uid 1) then fails too — the
fallback handle is still released. -/
theorem c2_released_on_good_paths_witness :
    releasedAllB
      (processFile sampleSettings ⟨true, true⟩ ⟨false, false, false, false, false⟩
        0 initialFactoryState).events = true
    ∧ (Event.released 1) ∈
        (processFile sampleSettings ⟨true, true⟩ ⟨false, true, false, true, false⟩
          0 initialFactoryState).events := by
  constructor
  · exact (c2_released_on_good_paths sampleSettings ⟨true, true⟩
      ⟨false, false, false, false, false⟩ 0 initialFactoryState).1
      (Or.inr (Or.inr ⟨rfl, rfl⟩))
  · refine (c2_released_on_good_paths sampleSettings ⟨true, true⟩
      ⟨false, true, false, true, false⟩ 0 initialFactoryState).2
      ⟨.claude, 0⟩ ((createProvider sampleSettings 0 initialFactoryState).2)
      1 ?_ ?_ ?_
    · exact Prod.ext (by decide) rfl
    · decide
    · decide

theorem handlePrimaryFailure_available (s : AIExcerptSettings) (o : RunOracle)
    (now : Nat) (st1 : FactoryState) (p : ProviderInst)
    (hkey : apiKeyFor s (fallbackKindOf s.provider) ≠ [])
    (hcool : isProviderInCooldown (reportProviderFailure st1 s.provider now)
      (fallbackKindOf s.provider) now = false) :
    (handlePrimaryFailure s o now st1 p).events.count .fallbackCall = 1
    ∧ (handlePrimaryFailure s o now st1 p).events.count .primaryCall = 1
    ∧ ((o.fallbackThrows = true ∨ o.fallbackWriteThrows = true) →
        (handlePrimaryFailure s o now st1 p).writes = 0) := by
  unfold handlePrimaryFailure
  by_cases hft : o.fallbackThrows <;> by_cases hfw : o.fallbackWriteThrows <;>
    simp [createFallbackProvider, hft, hfw, hcool, hkey, List.count_cons]

theorem handlePrimaryFailure_unavailable (s : AIExcerptSettings) (o : RunOracle)
    (now : Nat) (st1 : FactoryState) (p : ProviderInst)
    (hun : apiKeyFor s (fallbackKindOf s.provider) = [] ∨
      isProviderInCooldown (reportProviderFailure st1 s.provider now)
        (fallbackKindOf s.provider) now = true) :
    (handlePrimaryFailure s o now st1 p).events.count .fallbackCall = 0
    ∧ (handlePrimaryFailure s o now st1 p).events.count .primaryCall = 1
    ∧ (handlePrimaryFailure s o now st1 p).writes = 0 := by
  unfold handlePrimaryFailure
  rcases hun with hkey | hcool
  · by_cases hcool : isProviderInCooldown (reportProviderFailure st1 s.provider now)
        (fallbackKindOf s.provider) now <;>
      simp [createFallbackProvider, hcool, hkey, List.count_cons]
  · simp [createFallbackProvider, hcool, List.count_cons]

/-- Under the C8 hypotheses, `processFile` runs exactly the
`handlePrimaryFailure` block. -/
theorem processFile_primary_failure_eq (s : AIExcerptSettings) (doc : DocShape)
    (o : RunOracle) (now : Nat) (st st1 : FactoryState) (p : ProviderInst)
    (hmd : doc.isMd = true) (hfm : doc.hasFrontmatter = true)
    (hrd : o.readThrows = false) (hp : o.primaryThrows = true)
    (hcp : createProvider s now st = (some p, st1)) :
    processFile s doc o now st = handlePrimaryFailure s o now st1 p := by
  unfold processFile
  rw [hcp]
  simp [hmd, hfm, hrd, hp]

/-- Cooldown state of the fallback kind is unchanged by acquiring the
primary provider and reporting the primary kind's failure. -/
theorem fallback_cooldown_stable (s : AIExcerptSettings) (now : Nat)
    (st st1 : FactoryState) (p : ProviderInst)
    (hcp : createProvider s now st = (some p, st1)) :
    isProviderInCooldown (reportProviderFailure st1 s.provider now)
      (fallbackKindOf s.provider) now
    = isProviderInCooldown st (fallbackKindOf s.provider) now := by
  unfold isProviderInCooldown
  rw [reportProviderFailure_cooldowns_other st1 s.provider (fallbackKindOf s.provider)
    now (fallbackKindOf_ne s.provider)]
  have h1 : st1.providerCooldowns = st.providerCooldowns := by
    have h2 := createProvider_cooldowns s now st
    rw [hcp] at h2
    exact h2
  rw [h1]

/-- Claim C8 (amended): for every markdown document **with** a
frontmatter block whose primary `generateTags` call fails: if the
fallback kind's API key is configured and the fallback kind is not in
cooldown, exactly one fallback call is attempted (and a fallback failure
leaves the document unwritten, with no further retry); if the fallback
is unconfigured or in cooldown, the document fails with no fallback
attempt; in all cases the primary is called exactly once.  (Documents
without a frontmatter block never attempt a fallback — see the
counterexample.) -/
theorem c8_fallback_exactly_once (s : AIExcerptSettings) (doc : DocShape)
    (o : RunOracle) (now : Nat) (st st1 : FactoryState) (p : ProviderInst)
    (hmd : doc.isMd = true) (hfm : doc.hasFrontmatter = true)
    (hrd : o.readThrows = false) (hp : o.primaryThrows = true)
    (hcp : createProvider s now st = (some p, st1)) :
    ((apiKeyFor s (fallbackKindOf s.provider) ≠ [] ∧
        isProviderInCooldown st (fallbackKindOf s.provider) now = false) →
      ((processFile s doc o now st).events.count .fallbackCall = 1 ∧
        ((o.fallbackThrows = true ∨ o.fallbackWriteThrows = true) →
          (processFile s doc o now st).writes = 0)))
    ∧ ((apiKeyFor s (fallbackKindOf s.provider) = [] ∨
        isProviderInCooldown st (fallbackKindOf s.provider) now = true) →
      ((processFile s doc o now st).events.count .fallbackCall = 0 ∧
        (processFile s doc o now st).writes = 0))
    ∧ (processFile s doc o now st).events.count .primaryCall = 1 := by
  rw [processFile_primary_failure_eq s doc o now st st1 p hmd hfm hrd hp hcp]
  have hstab := fallback_cooldown_stable s now st st1 p hcp
  refine ⟨?_, ?_, ?_⟩
  · rintro ⟨hkey, hcool⟩
    have h := handlePrimaryFailure_available s o now st1 p hkey (hstab.trans hcool)
    exact ⟨h.1, h.2.2⟩
  · intro hun
    have h := handlePrimaryFailure_unavailable s o now st1 p
      (by rcases hun with h1 | h1
          · exact Or.inl h1
          · exact Or.inr (hstab.trans h1))
    exact ⟨h.1, h.2.2⟩
  · by_cases hkey : apiKeyFor s (fallbackKindOf s.provider) = []
    · exact (handlePrimaryFailure_unavailable s o now st1 p (Or.inl hkey)).2.1
    · by_cases hcool : isProviderInCooldown (reportProviderFailure st1 s.provider now)
          (fallbackKindOf s.provider) now
      · exact (handlePrimaryFailure_unavailable s o now st1 p (Or.inr hcool)).2.1
      · exact (handlePrimaryFailure_available s o now st1 p hkey
          (by simpa using hcool)).2.1

/-- Claim C8, counterexample: a markdown document **without** a
frontmatter block whose primary call fails, while the fallback provider
is configured and not in cooldown — yet no fallback call is attempted
(the claim requires exactly one). -/
theorem c8_counterexample_no_frontmatter_no_fallback :
    apiKeyFor sampleSettings (fallbackKindOf sampleSettings.provider) ≠ []
    ∧ isProviderInCooldown initialFactoryState
        (fallbackKindOf sampleSettings.provider) 0 = false
    ∧ (processFile sampleSettings ⟨true, false⟩ ⟨false, true, false, false, false⟩
        0 initialFactoryState).events.count .primaryCall = 1
    ∧ (processFile sampleSettings ⟨true, false⟩ ⟨false, true, false, false, false⟩
        0 initialFactoryState).events.count .fallbackCall = 0 := by
  refine ⟨?_, ?_, ?_, ?_⟩ <;> decide

/-- Witness for `c8_fallback_exactly_once` at a concrete run: Claude
primary fails, OpenAI fallback configured and available, fallback call
itself fails. -/
theorem c8_fallback_exactly_once_witness :
    (processFile sampleSettings ⟨true, true⟩ ⟨false, true, false, true, false⟩
      0 initialFactoryState).events.count .fallbackCall = 1
    ∧ (processFile sampleSettings ⟨true, true⟩ ⟨false, true, false, true, false⟩
        0 initialFactoryState).writes = 0
    ∧ (processFile sampleSettings ⟨true, true⟩ ⟨false, true, false, true, false⟩
        0 initialFactoryState).events.count .primaryCall = 1 := by
  have hcp : createProvider sampleSettings 0 initialFactoryState =
      (some ⟨.claude, 0⟩, (createProvider sampleSettings 0 initialFactoryState).2) := by
    have h1 : (createProvider sampleSettings 0 initialFactoryState).1 =
        some ⟨.claude, 0⟩ := by decide
    exact Prod.ext h1 rfl
  have h := c8_fallback_exactly_once sampleSettings ⟨true, true⟩
    ⟨false, true, false, true, false⟩ 0 initialFactoryState
    ((createProvider sampleSettings 0 initialFactoryState).2)
    ⟨.claude, 0⟩ rfl rfl rfl rfl hcp
  have h1 := h.1 (by constructor <;> decide)
  exact ⟨h1.1, h1.2 (Or.inl rfl), h.2.2⟩

/-! ### Batch-controller lemmas and claims C9/C10 -/

theorem processBatchDocs_append (u v : List Bool) (p e a : Nat) :
    processBatchDocs (u ++ v) p e a =
      processBatchDocs v (processBatchDocs u p e a).1
        (processBatchDocs u p e a).2.1 (processBatchDocs u p e a).2.2 := by
  induction u generalizing p e a with
  | nil => rfl
  | cons x xs ih =>
    by_cases hx : x = true
    · subst hx
      simp [processBatchDocs, ih]
    · simp only [Bool.not_eq_true] at hx
      subst hx
      simp [processBatchDocs, ih]

theorem toBatches_foldl (files : List Bool) : ∀ p e a : Nat,
    (toBatches files).foldl
      (fun acc batch => processBatchDocs batch acc.1 acc.2.1 acc.2.2) (p, e, a)
    = processBatchDocs files p e a := by
  induction files using toBatches.induct with
  | case1 => intro p e a; simp [toBatches, processBatchDocs]
  | case2 x xs ih =>
    intro p e a
    rw [toBatches]
    rw [List.foldl_cons]
    rw [ih]
    have h := processBatchDocs_append ((x :: xs).take 5) ((x :: xs).drop 5) p e a
    rw [List.take_append_drop] at h
    rw [h]

theorem processAllFiles_flat (files : List Bool) :
    processAllFiles files = processBatchDocs files 0 0 0 :=
  toBatches_foldl files 0 0 0

theorem processBatchDocs_allFalse (l : List Bool) :
    ∀ p e a : Nat, (∀ b ∈ l, b = false) →
      processBatchDocs l p e a = (p + l.length, e, a + l.length) := by
  induction l with
  | nil => intro p e a _; simp [processBatchDocs]
  | cons b t ih =>
    intro p e a h
    have hb : b = false := h b (List.mem_cons_self b t)
    subst hb
    simp only [processBatchDocs, Bool.false_eq_true, if_false]
    rw [ih (p + 1) e (a + 1) (fun x hx => h x (List.mem_cons_of_mem _ hx))]
    simp [Prod.ext_iff]
    omega

/-- Claim C9: in a batch of `N` documents in which exactly one document
throws during processing, the run completes with `processed = N - 1`,
`errors = 1`, and all `N` documents attempted (documents after the
failing one are still processed); one failure never aborts the batch. -/
theorem c9_batch_resilience (l1 l2 : List Bool)
    (h1 : ∀ b ∈ l1, b = false) (h2 : ∀ b ∈ l2, b = false) :
    processAllFiles (l1 ++ true :: l2)
      = (l1.length + l2.length, 1, l1.length + l2.length + 1) := by
  rw [processAllFiles_flat, processBatchDocs_append,
    processBatchDocs_allFalse l1 0 0 0 h1]
  simp only [processBatchDocs, if_true]
  rw [processBatchDocs_allFalse l2 _ _ _ h2]
  simp [Prod.ext_iff]
  omega

/-- Witness for `c9_batch_resilience`: four documents, the second
throws; final counts are `processed = 3`, `errors = 1`, all 4 attempted. -/
theorem c9_batch_resilience_witness :
    processAllFiles [false, true, false, false] = (3, 1, 4) := by
  have h := c9_batch_resilience [false] [false, false]
    (by intro b hb; simpa using hb) (by intro b hb; simp at hb; tauto)
  simpa using h

/-- Claim C10: when `processFile` fails internally without throwing —
no provider could be constructed, or the primary call failed with no
fallback available — the run completes normally with zero document
rewrites; and the batch loop counts a non-throwing document as
processed, incrementing the error count only for documents whose
processing throws. -/
theorem c10_internal_failure_counts_as_processed (s : AIExcerptSettings)
    (doc : DocShape) (o : RunOracle) (now : Nat) (st : FactoryState)
    (hmd : doc.isMd = true)
    (h : (createProvider s now st).1 = none ∨
      (doc.hasFrontmatter = true ∧ o.readThrows = false ∧ o.primaryThrows = true ∧
        (apiKeyFor s (fallbackKindOf s.provider) = [] ∨
          isProviderInCooldown st (fallbackKindOf s.provider) now = true))) :
    (processFile s doc o now st).writes = 0
    ∧ (∀ p e a : Nat, processBatchDocs [false] p e a = (p + 1, e, a + 1))
    ∧ (∀ p e a : Nat, processBatchDocs [true] p e a = (p, e + 1, a + 1)) := by
  refine ⟨?_, fun p e a => rfl, fun p e a => rfl⟩
  rcases h with hnone | ⟨hfm, hrd, hp, hun⟩
  · unfold processFile
    rcases hcp : createProvider s now st with ⟨r, st1⟩
    have hr : r = none := by rw [hcp] at hnone; exact hnone
    subst hr
    simp [hmd]
  · rcases hcp : createProvider s now st with ⟨r, st1⟩
    cases r with
    | none =>
      unfold processFile
      rw [hcp]
      simp [hmd]
    | some p =>
      rw [processFile_primary_failure_eq s doc o now st st1 p hmd hfm hrd hp hcp]
      have hstab := fallback_cooldown_stable s now st st1 p hcp
      refine (handlePrimaryFailure_unavailable s o now st1 p ?_).2.2
      rcases hun with h1 | h1
      · exact Or.inl h1
      · exact Or.inr (hstab.trans h1)

/-- Settings whose primary (Claude) API key is missing: no provider can
be constructed at all. -/
def noKeySettings : AIExcerptSettings :=
  { provider := .claude
    claudeApiKey := []
    claudeModel := "m1".data
    openaiApiKey := []
    openaiModel := "m2".data
    tagPfx := [] }

/-- Witness for `c10_internal_failure_counts_as_processed`: provider
construction fails (no API key), the run performs no rewrite. -/
theorem c10_internal_failure_witness :
    (processFile noKeySettings ⟨true, true⟩ ⟨false, false, false, false, false⟩
      0 initialFactoryState).writes = 0
    ∧ (∀ p e a : Nat, processBatchDocs [false] p e a = (p + 1, e, a + 1))
    ∧ (∀ p e a : Nat, processBatchDocs [true] p e a = (p, e + 1, a + 1)) :=
  c10_internal_failure_counts_as_processed noKeySettings ⟨true, true⟩
    ⟨false, false, false, false, false⟩ 0 initialFactoryState rfl
    (Or.inl (by decide))

/-! ### Frontmatter synthesis (`FileUtils.createContentWithTags`), claim C7 -/

/-- `FileUtils.createContentWithTags`: empty content yields `""`; empty
tag list yields the content unchanged; one tag is emitted inline
(`tags: [t]`), several as a block list; the block is then prepended with
the `---` delimiters and a blank line before the original content. -/
def createContentWithTags (content : List Char) (tags : List (List Char)) :
    List Char :=
  if content = [] then []
  else if tags = [] then content
  else
    let tagsYaml :=
      if tags.length = 1 then "tags: [".data ++ tags.headD [] ++ "]".data
      else "tags:\n".data ++
        List.intercalate "\n".data (tags.map (fun t => "  - ".data ++ t))
    "---\n".data ++ tagsYaml ++ "\n---\n\n".data ++ content

/-- Claim C7: for every non-empty body, synthesizing a metadata block
for tags `["a","b"]` yields exactly `---\ntags:\n  - a\n  - b\n---\n\n`
followed by the original body, and for every single tag the field is
emitted in inline list form. -/
theorem c7_createContentWithTags_shape (content t : List Char)
    (h : content ≠ []) :
    createContentWithTags content ["a".data, "b".data]
      = "---\ntags:\n  - a\n  - b\n---\n\n".data ++ content
    ∧ createContentWithTags content [t]
      = "---\ntags: [".data ++ t ++ "]\n---\n\n".data ++ content := by
  constructor
  · simp [createContentWithTags, h, List.intercalate]
  · simp [createContentWithTags, h]

/-- Witness for `c7_createContentWithTags_shape` at body `"x"` and
single tag `"t"`. -/
theorem c7_createContentWithTags_witness :
    createContentWithTags "x".data ["a".data, "b".data]
      = "---\ntags:\n  - a\n  - b\n---\n\nx".data
    ∧ createContentWithTags "x".data ["t".data]
      = "---\ntags: [t]\n---\n\nx".data := by
  have h := c7_createContentWithTags_shape "x".data "t".data (by decide)
  exact ⟨by rw [h.1]; decide, by rw [h.2]; decide⟩

/-! ### Levenshtein distance: the source's DP and the standard definition -/

/-- Modelled from the spec's words: the standard recursive Levenshtein
edit-distance definition (peel first characters; an empty side costs the
other's length; otherwise the minimum of deletion, insertion, and
substitution). -/
def levSpec : List Char → List Char → Nat
  | [], b => b.length
  | x :: a, [] => (x :: a).length
  | x :: a, y :: b =>
      min (levSpec a (y :: b) + 1)
        (min (levSpec (x :: a) b + 1)
          (levSpec a b + (if x = y then 0 else 1)))
termination_by a b => a.length + b.length
decreasing_by all_goals (simp; try omega)

/-- One inner iteration block of `TagUtils.levenshteinDistance`: compute
the remaining cells of row `j` given the remaining characters of `a`,
the row-`(j-1)` cells above them (`ups`), the diagonal cell
(`matrix[j-1][i-1]`) and the cell to the left (`matrix[j][i-1]`), as in
`matrix[j][i] = min(matrix[j][i-1]+1, matrix[j-1][i]+1, matrix[j-1][i-1]+cost)`. -/
def levGo (y : Char) : List Char → List Nat → Nat → Nat → List Nat
  | [], _, _, _ => []
  | _ :: _, [], _, _ => []
  | x :: arest, up :: ups, diag, left =>
      let v := min (left + 1) (min (up + 1) (diag + (if x = y then 0 else 1)))
      v :: levGo y arest ups up v

/-- One outer iteration of the DP (row `j` from row `j-1`): the first
cell is `matrix[j][0] = j` (one more than the previous row's first
cell), the rest comes from `levGo`. -/
def levNextRow (y : Char) (a : List Char) (row : List Nat) : List Nat :=
  (row.headD 0 + 1) :: levGo y a row.tail (row.headD 0) (row.headD 0 + 1)

/-- The outer loop of the DP over the characters of `b`. -/
def levLoop (a : List Char) : List Char → List Nat → List Nat
  | [], row => row
  | y :: bs, row => levLoop a bs (levNextRow y a row)

/-- `TagUtils.levenshteinDistance`: the early returns for empty inputs,
then the row-by-row dynamic program starting from row 0
(`matrix[0][i] = i`), answering `matrix[b.length][a.length]` (the last
cell of the final row). -/
def levenshteinDistance (a b : List Char) : Nat :=
  if a = [] then b.length
  else if b = [] then a.length
  else (levLoop a b (List.range (a.length + 1))).getLastD 0

/-- The cells `levSpec (rev (prefix)) u` that row arithmetic produces:
`cellsFrom r u l` lists, for each nonempty prefix `p` of `l`, the value
`levSpec (p.reverse ++ r) u`. -/
def cellsFrom (r u : List Char) : List Char → List Nat
  | [] => []
  | x :: rest => levSpec (x :: r) u :: cellsFrom (x :: r) u rest

theorem levSpec_nil (b : List Char) : levSpec [] b = b.length := by
  simp [levSpec]

theorem levSpec_cons_nil (x : Char) (a : List Char) :
    levSpec (x :: a) [] = a.length + 1 := by
  simp [levSpec]

theorem levSpec_cons (x : Char) (a : List Char) (y : Char) (b : List Char) :
    levSpec (x :: a) (y :: b) =
      min (levSpec a (y :: b) + 1)
        (min (levSpec (x :: a) b + 1)
          (levSpec a b + (if x = y then 0 else 1))) := by
  rw [levSpec]

theorem levSpec_nil_right (a : List Char) : levSpec a [] = a.length := by
  cases a with
  | nil => simp [levSpec_nil]
  | cons x rest => simp [levSpec_cons_nil]

set_option maxHeartbeats 1000000 in
/-- The last-character (snoc) recurrence also holds for the standard
head-peeling Levenshtein definition. -/
theorem levSpec_snoc_aux (x y : Char) : ∀ (n : Nat) (s t : List Char),
    s.length + t.length ≤ n →
    levSpec (s ++ [x]) (t ++ [y]) =
      min (levSpec s (t ++ [y]) + 1)
        (min (levSpec (s ++ [x]) t + 1)
          (levSpec s t + (if x = y then 0 else 1))) := by
  intro n
  induction n with
  | zero =>
    intro s t hst
    cases s with
    | nil =>
      cases t with
      | nil => simp [List.nil_append, levSpec_cons, levSpec_nil, levSpec_cons_nil]
      | cons b t' => simp at hst
    | cons a s' => simp at hst
  | succ n ih =>
    intro s t hst
    cases s with
    | nil =>
      cases t with
      | nil => simp [List.nil_append, levSpec_cons, levSpec_nil, levSpec_cons_nil]
      | cons b t' =>
        have iht := ih [] t' (by simp at hst ⊢; omega)
        simp only [List.nil_append] at iht ⊢
        simp only [List.cons_append]
        simp only [levSpec_cons, levSpec_nil, levSpec_cons_nil]
        simp only [levSpec_cons, levSpec_nil, levSpec_cons_nil] at iht
        rw [iht]
        simp only [List.length_append, List.length_cons, List.length_nil]
        by_cases hxb : x = b <;> by_cases hxy : x = y <;>
          simp only [hxb, hxy, if_pos, if_neg, if_true, if_false] <;> omega
    | cons a s' =>
      cases t with
      | nil =>
        have ihs := ih s' [] (by simp at hst ⊢; omega)
        simp only [List.nil_append, List.cons_append] at ihs
        simp only [List.nil_append, List.cons_append]
        simp only [levSpec_cons, levSpec_nil, levSpec_nil_right,
          List.length_append, List.length_cons, List.length_nil] at ihs
        simp only [levSpec_cons, levSpec_nil, levSpec_nil_right,
          List.length_append, List.length_cons, List.length_nil]
        rw [ihs]
        generalize levSpec s' [y] = A1
        by_cases hay : a = y <;> by_cases hxy : x = y <;>
          simp only [hay, hxy, if_pos, if_neg, if_true, if_false] <;> omega
      | cons b t' =>
        have ih1 := ih s' (b :: t') (by simp at hst ⊢; omega)
        have ih2 := ih (a :: s') t' (by simp at hst ⊢; omega)
        have ih3 := ih s' t' (by simp at hst ⊢; omega)
        simp only [List.cons_append] at ih1 ih2 ih3 ⊢
        simp only [levSpec_cons]
        rw [ih1, ih2, ih3]
        generalize levSpec s' (b :: (t' ++ [y])) = A1
        generalize levSpec (s' ++ [x]) (b :: t') = A2
        generalize levSpec s' (b :: t') = A3
        generalize levSpec (a :: s') (t' ++ [y]) = A4
        generalize levSpec (a :: (s' ++ [x])) t' = A5
        generalize levSpec (a :: s') t' = A6
        generalize levSpec s' (t' ++ [y]) = A7
        generalize levSpec (s' ++ [x]) t' = A8
        generalize levSpec s' t' = A9
        have hc1 : (if a = b then (0 : Nat) else 1) = 0 ∨
            (if a = b then (0 : Nat) else 1) = 1 := by split <;> simp
        have hc2 : (if x = y then (0 : Nat) else 1) = 0 ∨
            (if x = y then (0 : Nat) else 1) = 1 := by split <;> simp
        rcases hc1 with h1 | h1 <;> rcases hc2 with h2 | h2 <;> rw [h1, h2] <;>
          simp only [← min_add_add_right, Nat.add_zero] <;> ac_rfl

theorem levSpec_snoc (x y : Char) (s t : List Char) :
    levSpec (s ++ [x]) (t ++ [y]) =
      min (levSpec s (t ++ [y]) + 1)
        (min (levSpec (s ++ [x]) t + 1)
          (levSpec s t + (if x = y then 0 else 1))) :=
  levSpec_snoc_aux x y (s.length + t.length) s t (Nat.le_refl _)

/-- The standard Levenshtein definition is reversal-invariant. -/
theorem levSpec_reverse_aux : ∀ (n : Nat) (a b : List Char),
    a.length + b.length ≤ n →
    levSpec a.reverse b.reverse = levSpec a b := by
  intro n
  induction n with
  | zero =>
    intro a b hab
    cases a with
    | nil =>
      cases b with
      | nil => rfl
      | cons y t => simp at hab
    | cons x s => simp at hab
  | succ n ih =>
    intro a b hab
    cases a with
    | nil => simp [levSpec_nil, levSpec_nil_right]
    | cons x s =>
      cases b with
      | nil => simp [levSpec_nil, levSpec_nil_right]
      | cons y t =>
        rw [List.reverse_cons, List.reverse_cons, levSpec_snoc]
        rw [← List.reverse_cons y t, ← List.reverse_cons x s]
        rw [ih s (y :: t) (by simp at hab ⊢; omega)]
        rw [ih (x :: s) t (by simp at hab ⊢; omega)]
        rw [ih s t (by simp at hab ⊢; omega)]
        rw [levSpec_cons]

theorem levSpec_reverse (a b : List Char) :
    levSpec a.reverse b.reverse = levSpec a b :=
  levSpec_reverse_aux (a.length + b.length) a b (Nat.le_refl _)

theorem cellsFrom_nil (l : List Char) : ∀ (r : List Char),
    cellsFrom r [] l = (List.range l.length).map (fun i => r.length + 1 + i) := by
  induction l with
  | nil => intro r; rfl
  | cons x rest ih =>
    intro r
    show levSpec (x :: r) [] :: cellsFrom (x :: r) [] rest = _
    rw [levSpec_nil_right, ih (x :: r)]
    simp only [List.length_cons]
    rw [List.range_succ_eq_map, List.map_cons, List.map_map]
    congr 1
    apply List.map_congr_left
    intro i _
    simp only [Function.comp_apply]
    omega

theorem range_eq_cells (a : List Char) :
    List.range (a.length + 1) = 0 :: cellsFrom [] [] a := by
  rw [cellsFrom_nil a []]
  rw [List.range_succ_eq_map]
  congr 1
  apply List.map_congr_left
  intro i _
  simp only [List.length_nil]
  omega

theorem levGo_cells (y : Char) : ∀ (arest : List Char) (r u : List Char),
    levGo y arest (cellsFrom r u arest) (levSpec r u) (levSpec r (y :: u))
      = cellsFrom r (y :: u) arest := by
  intro arest
  induction arest with
  | nil => intro r u; rfl
  | cons x rest ih =>
    intro r u
    show levGo y (x :: rest) (levSpec (x :: r) u :: cellsFrom (x :: r) u rest) _ _ = _
    simp only [levGo]
    rw [← levSpec_cons x r y u]
    show levSpec (x :: r) (y :: u) ::
        levGo y rest (cellsFrom (x :: r) u rest) (levSpec (x :: r) u)
          (levSpec (x :: r) (y :: u))
      = levSpec (x :: r) (y :: u) :: cellsFrom (x :: r) (y :: u) rest
    exact congrArg _ (ih (x :: r) u)

theorem cellsFrom_getLastD : ∀ (l r u : List Char),
    (cellsFrom r u l).getLastD (levSpec r u) = levSpec (l.reverse ++ r) u := by
  intro l
  induction l with
  | nil => intro r u; rfl
  | cons x rest ih =>
    intro r u
    show (levSpec (x :: r) u :: cellsFrom (x :: r) u rest).getLastD (levSpec r u) = _
    rw [List.getLastD_cons, ih (x :: r) u]
    simp [List.reverse_cons, List.append_assoc]

theorem levLoop_cells (a : List Char) : ∀ (bs u : List Char),
    levLoop a bs (u.length :: cellsFrom [] u a)
      = (List.reverseAux bs u).length :: cellsFrom [] (List.reverseAux bs u) a := by
  intro bs
  induction bs with
  | nil => intro u; rfl
  | cons y bs' ih =>
    intro u
    show levLoop a bs' (levNextRow y a (u.length :: cellsFrom [] u a)) = _
    have hrow : levNextRow y a (u.length :: cellsFrom [] u a)
        = (u.length + 1) :: cellsFrom [] (y :: u) a := by
      unfold levNextRow
      simp only [List.headD_cons, List.tail_cons]
      have h2 : u.length + 1 = levSpec ([] : List Char) (y :: u) := by
        simp [levSpec_nil]
      rw [h2]
      have h1 : (u.length : Nat) = levSpec ([] : List Char) u := (levSpec_nil u).symm
      rw [h1]
      rw [levGo_cells y a [] u]
    rw [hrow]
    exact ih (y :: u)

theorem levenshteinDistance_eq_rev (a b : List Char) :
    levenshteinDistance a b = levSpec a.reverse b.reverse := by
  unfold levenshteinDistance
  by_cases ha : a = []
  · subst ha
    simp [levSpec_nil]
  · by_cases hb : b = []
    · subst hb
      simp [ha, levSpec_nil_right]
    · simp only [ha, hb, if_false]
      rw [range_eq_cells a]
      have hloop := levLoop_cells a b []
      simp only [List.length_nil] at hloop
      rw [hloop]
      rw [List.getLastD_cons]
      have hlast := cellsFrom_getLastD a [] (List.reverseAux b [])
      simp only [levSpec_nil, List.append_nil] at hlast
      rw [hlast]
      simp [List.reverseAux_eq]

/-- The source's dynamic-programming `levenshteinDistance` computes
exactly the standard recursive Levenshtein distance. -/
theorem levenshteinDistance_correct (a b : List Char) :
    levenshteinDistance a b = levSpec a b := by
  rw [levenshteinDistance_eq_rev, levSpec_reverse]

/-! ### `TagUtils.findSimilarTags` and `FileProcessor.enhanceTagConsistency`
(claims C5 and C4).  The vault's tag snapshot (`getAllVaultTags`) is an
external read and is passed in as the `existingTags` list. -/

/-- `TagUtils.findSimilarTags`: keep the vocabulary entries whose DP
edit distance to `tag` is positive and at most `threshold` (vocabulary
order; no reordering happens in the source). -/
def findSimilarTags (tag : List Char) (existingTags : List (List Char))
    (threshold : Nat) : List (List Char) :=
  existingTags.filter fun existingTag =>
    decide (levenshteinDistance tag existingTag ≤ threshold) &&
    decide (levenshteinDistance tag existingTag > 0)

/-- `findSimilarTags` is the filter by standard Levenshtein distance in
`(0, threshold]`. -/
theorem findSimilarTags_filter_eq (tag : List Char)
    (vocab : List (List Char)) (threshold : Nat) :
    findSimilarTags tag vocab threshold
      = vocab.filter (fun e =>
          decide (0 < levSpec tag e ∧ levSpec tag e ≤ threshold)) := by
  unfold findSimilarTags
  apply List.filter_congr
  intro e _
  rw [levenshteinDistance_correct]
  simp [Bool.and_comm, gt_iff_lt]

/-- JavaScript `Set.prototype.add` on insertion-ordered string sets
(`enhancedTags` in `enhanceTagConsistency`). -/
def jsSetAdd (s : List (List Char)) (x : List Char) : List (List Char) :=
  if x ∈ s then s else s ++ [x]

/-- `FileProcessor.enhanceTagConsistency`: for each generated tag, keep
it when it is already in the vocabulary; otherwise take the first
`findSimilarTags` result when there is one; otherwise keep the new tag.
The `Set` deduplicates; `Array.from` returns insertion order. -/
def enhanceTagConsistency (existingTags generatedTags : List (List Char)) :
    List (List Char) :=
  generatedTags.foldl
    (fun enhancedTags tag =>
      if tag ∈ existingTags then jsSetAdd enhancedTags tag
      else
        match findSimilarTags tag existingTags 2 with
        | [] => jsSetAdd enhancedTags tag
        | closest :: _ => jsSetAdd enhancedTags closest)
    []

/-- The per-candidate reconciliation rule as the (amended) spec words
it: exact match kept; otherwise the **first** vocabulary entry within
standard-Levenshtein distance `(0, 2]`; otherwise the candidate itself. -/
def reconcileOneSpec (vocab : List (List Char)) (t : List Char) : List Char :=
  if t ∈ vocab then t
  else
    match vocab.filter (fun e => decide (0 < levSpec t e ∧ levSpec t e ≤ 2)) with
    | [] => t
    | closest :: _ => closest

theorem enhance_eq_reconcile_fold (vocab gen : List (List Char)) :
    enhanceTagConsistency vocab gen
      = gen.foldl (fun acc t => jsSetAdd acc (reconcileOneSpec vocab t)) [] := by
  unfold enhanceTagConsistency
  apply List.foldl_ext
  intro acc t _
  unfold reconcileOneSpec
  by_cases hmem : t ∈ vocab
  · simp [hmem]
  · simp only [hmem, if_false]
    rw [findSimilarTags_filter_eq]
    cases vocab.filter (fun e => decide (0 < levSpec t e ∧ levSpec t e ≤ 2)) <;> rfl

theorem jsSetAdd_nodup (s : List (List Char)) (x : List Char)
    (h : s.Nodup) : (jsSetAdd s x).Nodup := by
  unfold jsSetAdd
  by_cases hx : x ∈ s
  · simp [hx, h]
  · simp only [hx, if_false]
    simpa [List.nodup_append, h] using hx

theorem foldl_jsSetAdd_nodup (f : List Char → List Char) :
    ∀ (l : List (List Char)) (acc : List (List Char)), acc.Nodup →
      (l.foldl (fun a t => jsSetAdd a (f t)) acc).Nodup := by
  intro l
  induction l with
  | nil => intro acc h; exact h
  | cons t rest ih =>
    intro acc h
    exact ih (jsSetAdd acc (f t)) (jsSetAdd_nodup acc (f t) h)

/-- Claim C4 (amended): reconciliation keeps a candidate that exactly
equals a vocabulary entry; otherwise, when at least one vocabulary entry
lies within (standard Levenshtein) distance `(0, 2]`, it substitutes the
**first such entry in vocabulary order** (not necessarily the closest);
otherwise it keeps the candidate as a new tag; and the resulting tag
list contains no duplicates. -/
theorem c4_reconcile_first_match_dedup (vocab gen : List (List Char)) :
    enhanceTagConsistency vocab gen
      = gen.foldl (fun acc t => jsSetAdd acc (reconcileOneSpec vocab t)) []
    ∧ (enhanceTagConsistency vocab gen).Nodup := by
  refine ⟨enhance_eq_reconcile_fold vocab gen, ?_⟩
  rw [enhance_eq_reconcile_fold vocab gen]
  exact foldl_jsSetAdd_nodup (reconcileOneSpec vocab) gen [] List.nodup_nil

/-- Claim C4, counterexample: vocabulary `["ab12", "abc"]`, candidate
`"ab"`.  The closest entry is `"abc"` (distance 1 < 2), but the code
substitutes `"ab12"`, the first entry within the threshold in vocabulary
order — not the closest. -/
theorem c4_counterexample_not_closest :
    enhanceTagConsistency ["ab12".data, "abc".data] ["ab".data] = ["ab12".data]
    ∧ enhanceTagConsistency ["ab12".data, "abc".data] ["ab".data] ≠ ["abc".data]
    ∧ levenshteinDistance "ab".data "abc".data = 1
    ∧ levenshteinDistance "ab".data "ab12".data = 2
    ∧ "abc".data ∈ (["ab12".data, "abc".data] : List (List Char)) := by
  refine ⟨?_, ?_, ?_, ?_, ?_⟩ <;> decide

/-- Claim C5 (amended): `findSimilarTags` with threshold 2 returns
exactly the vocabulary entries whose standard Levenshtein distance to
the candidate lies in `(0, 2]` — in vocabulary order, not sorted by
ascending distance — and the DP distance function used equals the
standard Levenshtein edit-distance definition. -/
theorem c5_findSimilarTags_characterization (tag : List Char)
    (vocab : List (List Char)) :
    findSimilarTags tag vocab 2
      = vocab.filter (fun e => decide (0 < levSpec tag e ∧ levSpec tag e ≤ 2))
    ∧ (∀ a b : List Char, levenshteinDistance a b = levSpec a b) :=
  ⟨findSimilarTags_filter_eq tag vocab 2, levenshteinDistance_correct⟩

/-- Claim C5, counterexample for the ordering clause: candidate `"ab"`,
vocabulary `["abcd", "abc"]`.  Both entries pass the threshold, but the
result keeps vocabulary order `["abcd", "abc"]` (distances 2, then 1),
which is not ascending by distance. -/
theorem c5_counterexample_not_sorted :
    findSimilarTags "ab".data ["abcd".data, "abc".data] 2
      = ["abcd".data, "abc".data]
    ∧ levenshteinDistance "ab".data "abcd".data = 2
    ∧ levenshteinDistance "ab".data "abc".data = 1
    ∧ ¬ List.Pairwise
        (fun u v => levenshteinDistance "ab".data u ≤ levenshteinDistance "ab".data v)
        (findSimilarTags "ab".data ["abcd".data, "abc".data] 2) := by
  refine ⟨?_, ?_, ?_, ?_⟩ <;> decide

/-! ### Tag formatting (`FileProcessor.formatTags`), claim C6

The source normalizes each tag with `toLowerCase`, `trim`, a regex
replacement of every character outside `a-z0-9` slash dash by a dash,
a collapse of every dash run to a single dash, and a removal of a
leading and a trailing dash; then it prepends the configured prefix.
Each stage is embedded on
`List Char`: character-wise ASCII lowercasing, whitespace trim, the
character-class replacement, collapsing dash runs, and removing one
leading and one trailing dash. -/

/-- The regex character class `[a-z0-9/\-]` (the complement is replaced
by a dash). -/
def allowedChar (c : Char) : Bool :=
  (97 ≤ c.toNat && c.toNat ≤ 122) || (48 ≤ c.toNat && c.toNat ≤ 57) ||
    c == '/' || c == '-'

/-- Whitespace removed by `trim` (space, tab, newline, carriage return). -/
def isWsChar (c : Char) : Bool :=
  c == ' ' || c == '\t' || c == '\n' || c == '\r'

/-- `String.prototype.trim`. -/
def trimList (l : List Char) : List Char :=
  ((l.dropWhile isWsChar).reverse.dropWhile isWsChar).reverse

/-- The regex replacement of disallowed characters by a dash. -/
def replaceBad (l : List Char) : List Char :=
  l.map (fun c => if allowedChar c then c else '-')

/-- The regex replacement collapsing each maximal run of dashes to one
dash.  The flag records whether the previous character was a dash. -/
def collapseAux : Bool → List Char → List Char
  | _, [] => []
  | prevDash, c :: rest =>
      if c = '-' then
        if prevDash then collapseAux true rest
        else '-' :: collapseAux true rest
      else c :: collapseAux false rest

def collapseDashes (l : List Char) : List Char := collapseAux false l

/-- The leading-dash alternative of the edge-dash removal regex. -/
def stripLeadDash : List Char → List Char
  | [] => []
  | c :: rest => if c = '-' then rest else c :: rest

/-- The trailing-dash alternative of the edge-dash removal regex. -/
def stripTrailDash : List Char → List Char
  | [] => []
  | [c] => if c = '-' then [] else [c]
  | c :: rest => c :: stripTrailDash rest

/-- The normalization chain applied to one tag inside `formatTags`. -/
def normalizeTag (l : List Char) : List Char :=
  stripTrailDash (stripLeadDash (collapseDashes (replaceBad
    (trimList (l.map Char.toLower)))))

/-- One tag of `FileProcessor.formatTags`: the configured prefix
(`settings.tagPrefix || ""`) prepended to the normalized tag. -/
def formatTag (pfx : List Char) (tag : List Char) : List Char :=
  pfx ++ normalizeTag tag

/-- `FileProcessor.formatTags`. -/
def formatTags (pfx : List Char) (tags : List (List Char)) :
    List (List Char) :=
  tags.map (formatTag pfx)

/-- No two adjacent dashes. -/
def noDD : List Char → Bool
  | a :: b :: rest => (!(a == '-' && b == '-')) && noDD (b :: rest)
  | _ => true

theorem mem_collapseAux : ∀ (l : List Char) (p : Bool) (c : Char),
    c ∈ collapseAux p l → c ∈ l := by
  intro l
  induction l with
  | nil => intro p c h; simp [collapseAux] at h
  | cons d rest ih =>
    intro p c h
    unfold collapseAux at h
    by_cases hd : d = '-'
    · subst hd
      simp only [if_pos rfl] at h
      cases p with
      | true => exact List.mem_cons_of_mem _ (ih true c h)
      | false =>
        simp at h
        rcases h with h | h
        · simp [h]
        · exact List.mem_cons_of_mem _ (ih true c h)
    · simp only [if_neg hd] at h
      simp at h
      rcases h with h | h
      · simp [h]
      · exact List.mem_cons_of_mem _ (ih false c h)

theorem mem_stripLeadDash (l : List Char) (c : Char)
    (h : c ∈ stripLeadDash l) : c ∈ l := by
  cases l with
  | nil => simp [stripLeadDash] at h
  | cons d rest =>
    by_cases hd : d = '-'
    · rw [show stripLeadDash (d :: rest) = rest by simp [stripLeadDash, hd]] at h
      exact List.mem_cons_of_mem _ h
    · rw [show stripLeadDash (d :: rest) = d :: rest by
        simp [stripLeadDash, hd]] at h
      exact h

theorem mem_stripTrailDash : ∀ (l : List Char) (c : Char),
    c ∈ stripTrailDash l → c ∈ l := by
  intro l
  induction l with
  | nil => intro c h; simp [stripTrailDash] at h
  | cons d rest ih =>
    intro c h
    cases rest with
    | nil =>
      unfold stripTrailDash at h
      split at h
      · simp at h
      · exact h
    | cons e rest' =>
      unfold stripTrailDash at h
      simp at h
      rcases h with h | h
      · simp [h]
      · exact List.mem_cons_of_mem _ (ih c h)

theorem allowed_replaceBad (l : List Char) (c : Char)
    (h : c ∈ replaceBad l) : allowedChar c = true := by
  unfold replaceBad at h
  rw [List.mem_map] at h
  rcases h with ⟨d, _, hd⟩
  by_cases ha : allowedChar d = true
  · rw [if_pos ha] at hd; subst hd; exact ha
  · rw [if_neg ha] at hd; subst hd; decide

theorem collapseAux_cons_dash_true (rest : List Char) :
    collapseAux true ('-' :: rest) = collapseAux true rest := by
  simp [collapseAux]

theorem collapseAux_cons_dash_false (rest : List Char) :
    collapseAux false ('-' :: rest) = '-' :: collapseAux true rest := by
  simp [collapseAux]

theorem collapseAux_cons_ne (p : Bool) (d : Char) (rest : List Char)
    (hd : d ≠ '-') : collapseAux p (d :: rest) = d :: collapseAux false rest := by
  simp [collapseAux, hd]

theorem collapseAux_true_head : ∀ (l : List Char) (c : Char),
    (collapseAux true l).head? = some c → c ≠ '-' := by
  intro l
  induction l with
  | nil => intro c h; simp [collapseAux] at h
  | cons d rest ih =>
    intro c h
    by_cases hd : d = '-'
    · subst hd
      rw [collapseAux_cons_dash_true] at h
      exact ih c h
    · rw [collapseAux_cons_ne true d rest hd] at h
      simp at h
      subst h
      exact hd

theorem noDD_tail {a : Char} {t : List Char} (h : noDD (a :: t) = true) :
    noDD t = true := by
  cases t with
  | nil => rfl
  | cons b t' =>
    unfold noDD at h
    simp only [Bool.and_eq_true] at h
    exact h.2

theorem noDD_cons (c : Char) (X : List Char)
    (hhead : ∀ h, X.head? = some h → ¬(c = '-' ∧ h = '-'))
    (hX : noDD X = true) : noDD (c :: X) = true := by
  cases X with
  | nil => rfl
  | cons h t =>
    have hne := hhead h rfl
    by_cases hc : c = '-'
    · by_cases hh : h = '-'
      · exact absurd ⟨hc, hh⟩ hne
      · simp [noDD, hc, hh, hX]
    · simp [noDD, hc, hX]

theorem noDD_collapseAux : ∀ (l : List Char) (p : Bool),
    noDD (collapseAux p l) = true := by
  intro l
  induction l with
  | nil => intro p; rfl
  | cons d rest ih =>
    intro p
    by_cases hd : d = '-'
    · subst hd
      cases p with
      | true => rw [collapseAux_cons_dash_true]; exact ih true
      | false =>
        rw [collapseAux_cons_dash_false]
        apply noDD_cons
        · intro h hh hand
          exact collapseAux_true_head rest h hh hand.2
        · exact ih true
    · rw [collapseAux_cons_ne p d rest hd]
      apply noDD_cons
      · intro h _ hand
        exact hd hand.1
      · exact ih false

theorem noDD_pair {a b : Char} {t : List Char}
    (h : noDD (a :: b :: t) = true) : ¬(a = '-' ∧ b = '-') := by
  unfold noDD at h
  simp only [Bool.and_eq_true] at h
  have h1 := h.1
  intro hand
  rw [hand.1, hand.2] at h1
  simp at h1

theorem stripLeadDash_eq_dash (rest : List Char) :
    stripLeadDash ('-' :: rest) = rest := by
  simp [stripLeadDash]

theorem stripLeadDash_eq_ne (d : Char) (rest : List Char) (hd : d ≠ '-') :
    stripLeadDash (d :: rest) = d :: rest := by
  simp [stripLeadDash, hd]

theorem stripLeadDash_noDD (l : List Char) (h : noDD l = true) :
    noDD (stripLeadDash l) = true := by
  cases l with
  | nil => rfl
  | cons d rest =>
    by_cases hd : d = '-'
    · subst hd; rw [stripLeadDash_eq_dash]; exact noDD_tail h
    · rw [stripLeadDash_eq_ne d rest hd]; exact h

theorem stripLeadDash_head (l : List Char) (h : noDD l = true) :
    ∀ c, (stripLeadDash l).head? = some c → c ≠ '-' := by
  cases l with
  | nil => intro c hc; simp [stripLeadDash] at hc
  | cons d rest =>
    intro c hc
    by_cases hd : d = '-'
    · subst hd
      rw [stripLeadDash_eq_dash] at hc
      cases rest with
      | nil => simp at hc
      | cons e t =>
        simp at hc
        subst hc
        intro he
        exact noDD_pair h ⟨rfl, he⟩
    · rw [stripLeadDash_eq_ne d rest hd] at hc
      simp at hc
      subst hc
      exact hd

theorem stripTrailDash_cons_cons (d e : Char) (t : List Char) :
    stripTrailDash (d :: e :: t) = d :: stripTrailDash (e :: t) := rfl

theorem stripTrailDash_head? : ∀ (l : List Char) (c : Char),
    (stripTrailDash l).head? = some c → l.head? = some c := by
  intro l c h
  cases l with
  | nil => simp [stripTrailDash] at h
  | cons d rest =>
    cases rest with
    | nil =>
      by_cases hd : d = '-'
      · rw [show stripTrailDash [d] = [] by simp [stripTrailDash, hd]] at h
        simp at h
      · rw [show stripTrailDash [d] = [d] by simp [stripTrailDash, hd]] at h
        exact h
    | cons e t =>
      rw [stripTrailDash_cons_cons] at h
      simpa using h

theorem stripTrailDash_noDD : ∀ (l : List Char), noDD l = true →
    noDD (stripTrailDash l) = true := by
  intro l
  induction l with
  | nil => intro _; rfl
  | cons d rest ih =>
    intro h
    cases rest with
    | nil =>
      by_cases hd : d = '-'
      · rw [show stripTrailDash [d] = [] by simp [stripTrailDash, hd]]; rfl
      · rw [show stripTrailDash [d] = [d] by simp [stripTrailDash, hd]]; rfl
    | cons e t =>
      rw [stripTrailDash_cons_cons]
      apply noDD_cons
      · intro x hx hand
        have hxe := stripTrailDash_head? (e :: t) x hx
        simp at hxe
        subst hxe
        exact noDD_pair h hand
      · exact ih (noDD_tail h)

theorem stripTrailDash_last : ∀ (l : List Char), noDD l = true →
    ∀ c, (stripTrailDash l).getLast? = some c → c ≠ '-' := by
  intro l
  induction l with
  | nil => intro _ c hc; simp [stripTrailDash] at hc
  | cons d rest ih =>
    intro h c hc
    cases rest with
    | nil =>
      by_cases hd : d = '-'
      · rw [show stripTrailDash [d] = [] by simp [stripTrailDash, hd]] at hc
        simp at hc
      · rw [show stripTrailDash [d] = [d] by simp [stripTrailDash, hd]] at hc
        simp at hc
        subst hc
        exact hd
    | cons e t =>
      rw [stripTrailDash_cons_cons] at hc
      rcases hX : stripTrailDash (e :: t) with _ | ⟨x, xs⟩
      · rw [hX] at hc
        simp at hc
        subst hc
        -- stripTrailDash (e :: t) = [] forces t = [] and e = '-'
        cases t with
        | nil =>
          by_cases he : e = '-'
          · intro hd
            exact noDD_pair h ⟨hd, he⟩
          · rw [show stripTrailDash [e] = [e] by simp [stripTrailDash, he]] at hX
            simp at hX
        | cons f t' =>
          rw [stripTrailDash_cons_cons] at hX
          simp at hX
      · rw [hX] at hc
        rw [List.getLast?_cons_cons] at hc
        rw [← hX] at hc
        exact ih (noDD_tail h) c hc

theorem toLower_of_allowed (c : Char) (h : allowedChar c = true) :
    c.toLower = c := by
  have hn : ¬(65 ≤ c.toNat ∧ c.toNat ≤ 90) := by
    unfold allowedChar at h
    simp at h
    rcases h with ((⟨h1, h2⟩ | ⟨h1, h2⟩) | h1) | h1
    · omega
    · omega
    · subst h1; decide
    · subst h1; decide
  simp [Char.toLower, hn]

theorem allowed_not_ws (c : Char) (h : allowedChar c = true) :
    isWsChar c = false := by
  cases hws : isWsChar c with
  | false => rfl
  | true =>
    exfalso
    unfold isWsChar at hws
    simp at hws
    rcases hws with ((he | he) | he) | he <;>
      (subst he; exact absurd h (by decide))

theorem map_toLower_fix (l : List Char)
    (h : ∀ c ∈ l, allowedChar c = true) : l.map Char.toLower = l := by
  induction l with
  | nil => rfl
  | cons c rest ih =>
    simp only [List.map_cons]
    rw [toLower_of_allowed c (h c (by simp)),
      ih (fun d hd => h d (by simp [hd]))]

theorem dropWhile_ws_fix (l : List Char)
    (h : ∀ c ∈ l, allowedChar c = true) : l.dropWhile isWsChar = l := by
  cases l with
  | nil => rfl
  | cons c rest =>
    rw [List.dropWhile_cons]
    rw [allowed_not_ws c (h c (by simp))]
    simp

theorem trim_fix (l : List Char)
    (h : ∀ c ∈ l, allowedChar c = true) : trimList l = l := by
  unfold trimList
  rw [dropWhile_ws_fix l h]
  rw [dropWhile_ws_fix l.reverse (fun c hc => h c (List.mem_reverse.mp hc))]
  exact List.reverse_reverse l

theorem replaceBad_fix (l : List Char)
    (h : ∀ c ∈ l, allowedChar c = true) : replaceBad l = l := by
  unfold replaceBad
  induction l with
  | nil => rfl
  | cons c rest ih =>
    simp only [List.map_cons]
    rw [if_pos (h c (by simp)), ih (fun d hd => h d (by simp [hd]))]

theorem collapseAux_fix : ∀ (l : List Char) (p : Bool), noDD l = true →
    (p = true → ∀ c, l.head? = some c → c ≠ '-') → collapseAux p l = l := by
  intro l
  induction l with
  | nil => intro p _ _; rfl
  | cons d rest ih =>
    intro p hn hh
    by_cases hd : d = '-'
    · subst hd
      cases p with
      | true => exact absurd rfl (hh rfl '-' rfl)
      | false =>
        rw [collapseAux_cons_dash_false]
        congr 1
        apply ih true (noDD_tail hn)
        intro _ c hc
        cases rest with
        | nil => simp at hc
        | cons e t =>
          simp at hc
          subst hc
          intro he
          exact noDD_pair hn ⟨rfl, he⟩
    · rw [collapseAux_cons_ne p d rest hd]
      congr 1
      exact ih false (noDD_tail hn) (fun hfalse => by simp at hfalse)

theorem stripLead_fix (l : List Char)
    (h : ∀ c, l.head? = some c → c ≠ '-') : stripLeadDash l = l := by
  cases l with
  | nil => rfl
  | cons d rest => exact stripLeadDash_eq_ne d rest (h d rfl)

theorem stripTrail_fix : ∀ (l : List Char),
    (∀ c, l.getLast? = some c → c ≠ '-') → stripTrailDash l = l := by
  intro l
  induction l with
  | nil => intro _; rfl
  | cons d rest ih =>
    intro h
    cases rest with
    | nil =>
      have hd : d ≠ '-' := h d (by simp)
      simp [stripTrailDash, hd]
    | cons e t =>
      rw [stripTrailDash_cons_cons]
      congr 1
      apply ih
      intro c hc
      apply h c
      rw [List.getLast?_cons_cons]
      exact hc

theorem normalizeTag_allowed (s : List Char) :
    ∀ c ∈ normalizeTag s, allowedChar c = true := by
  intro c hc
  unfold normalizeTag at hc
  exact allowed_replaceBad _ c
    (mem_collapseAux _ _ c
      (mem_stripLeadDash _ c (mem_stripTrailDash _ c hc)))

theorem normalizeTag_noDD (s : List Char) : noDD (normalizeTag s) = true :=
  stripTrailDash_noDD _ (stripLeadDash_noDD _ (noDD_collapseAux _ false))

theorem normalizeTag_head (s : List Char) :
    ∀ c, (normalizeTag s).head? = some c → c ≠ '-' := by
  intro c hc
  unfold normalizeTag at hc
  exact stripLeadDash_head _ (noDD_collapseAux _ false) c
    (stripTrailDash_head? _ c hc)

theorem normalizeTag_last (s : List Char) :
    ∀ c, (normalizeTag s).getLast? = some c → c ≠ '-' := by
  intro c hc
  unfold normalizeTag at hc
  exact stripTrailDash_last _
    (stripLeadDash_noDD _ (noDD_collapseAux _ false)) c hc

/-- Normalization (without the prefix) is idempotent. -/
theorem normalizeTag_idem (s : List Char) :
    normalizeTag (normalizeTag s) = normalizeTag s := by
  have hall := normalizeTag_allowed s
  have hnd := normalizeTag_noDD s
  have hh := normalizeTag_head s
  have hl := normalizeTag_last s
  show stripTrailDash (stripLeadDash (collapseDashes (replaceBad
    (trimList ((normalizeTag s).map Char.toLower))))) = normalizeTag s
  rw [map_toLower_fix _ hall, trim_fix _ hall, replaceBad_fix _ hall]
  rw [show collapseDashes (normalizeTag s) = normalizeTag s from
    collapseAux_fix _ false hnd (fun hfalse => by simp at hfalse)]
  rw [stripLead_fix _ hh, stripTrail_fix _ hl]

/-- Claim C6 (amended): with an empty configured prefix, `formatTags` is
idempotent — re-normalizing an already-normalized tag list returns it
unchanged.  (With a non-empty prefix it is not — see the
counterexample.) -/
theorem c6_formatTags_idempotent_empty_prefix (tags : List (List Char)) :
    formatTags [] (formatTags [] tags) = formatTags [] tags := by
  unfold formatTags
  rw [List.map_map]
  apply List.map_congr_left
  intro t _
  show formatTag [] (formatTag [] t) = formatTag [] t
  unfold formatTag
  simp only [List.nil_append]
  exact normalizeTag_idem t

/-- Claim C6, counterexample: with configured prefix `"x"`, formatting
`["a"]` yields `["xa"]`, but formatting the result again yields
`["xxa"]` — normalization including the prefix is not idempotent. -/
theorem c6_counterexample_prefix_breaks_idempotence :
    formatTags "x".data (formatTags "x".data ["a".data])
      ≠ formatTags "x".data ["a".data]
    ∧ formatTags "x".data ["a".data] = ["xa".data]
    ∧ formatTags "x".data (formatTags "x".data ["a".data]) = ["xxa".data] := by
  refine ⟨?_, ?_, ?_⟩ <;> decide

/-! ### Pool bound, reuse and LRU eviction (claim C3) -/

/-- The public operations of `ProviderFactory` other than
`createFallbackProvider`. -/
inductive FactoryOp where
  | create (s : AIExcerptSettings) (now : Nat)
  | release (p : ProviderInst) (now : Nat)
  | report (k : LLMProvider) (now : Nat)

def runOp (st : FactoryState) : FactoryOp → FactoryState
  | .create s now => (createProvider s now st).2
  | .release p now => releaseProvider st p now
  | .report k now => reportProviderFailure st k now

def runOps (ops : List FactoryOp) (st : FactoryState) : FactoryState :=
  ops.foldl runOp st

/-- The factory-state invariant: the pool respects the bound, and every
kind with a recorded cooldown is also in `failedProviders` (cooldowns
are only ever set by `reportProviderFailure`, which sets both). -/
def PoolInv (st : FactoryState) : Prop :=
  st.activeProviders.length ≤ maxActiveProviders ∧
  ∀ k, st.providerCooldowns k ≠ none → k ∈ st.failedProviders

theorem mapSet_length_le (m : List (List Char × PoolEntry)) (k : List Char)
    (v : PoolEntry) : (mapSet m k v).length ≤ m.length + 1 := by
  induction m with
  | nil => simp [mapSet]
  | cons kv rest ih =>
    unfold mapSet
    split
    · simp
    · simpa using ih

theorem mapDelete_length_mem : ∀ (m : List (List Char × PoolEntry))
    (k : List Char), (∃ e ∈ m, e.1 = k) →
    (mapDelete m k).length + 1 = m.length := by
  intro m
  induction m with
  | nil => intro k h; rcases h with ⟨e, he, _⟩; simp at he
  | cons kv rest ih =>
    intro k h
    unfold mapDelete
    by_cases hk : kv.1 = k
    · simp [hk]
    · rw [if_neg hk]
      rcases h with ⟨e, he, hek⟩
      simp at he
      rcases he with he | he
      · subst he; exact absurd hek hk
      · simp [ih k ⟨e, he, hek⟩]

theorem getExistingProvider_length : ∀ (m : List (List Char × PoolEntry))
    (k : LLMProvider) (now : Nat),
    (getExistingProvider m k now).2.length = m.length := by
  intro m
  induction m with
  | nil => intro k now; rfl
  | cons kv rest ih =>
    intro k now
    unfold getExistingProvider
    split
    · simp
    · rcases hg : getExistingProvider rest k now with ⟨r, rest'⟩
      have := ih k now
      rw [hg] at this
      simp [this]

theorem getExisting_found : ∀ (m : List (List Char × PoolEntry))
    (k : LLMProvider) (now : Nat), (∃ e ∈ m, e.2.inst.kind = k) →
    ∃ e m', e ∈ m ∧ e.2.inst.kind = k ∧
      getExistingProvider m k now = (some e.2.inst, m') ∧
      m'.map (fun kv => (kv.1, kv.2.inst)) = m.map (fun kv => (kv.1, kv.2.inst)) := by
  intro m
  induction m with
  | nil => intro k now h; rcases h with ⟨e, he, _⟩; simp at he
  | cons kv rest ih =>
    intro k now h
    by_cases hk : kv.2.inst.kind = k
    · refine ⟨kv, (kv.1, { kv.2 with lastUsed := now }) :: rest, by simp, hk, ?_, by simp⟩
      unfold getExistingProvider
      rw [if_pos hk]
    · have h' : ∃ e ∈ rest, e.2.inst.kind = k := by
        rcases h with ⟨e, he, hek⟩
        simp at he
        rcases he with he | he
        · subst he; exact absurd hek hk
        · exact ⟨e, he, hek⟩
      rcases ih k now h' with ⟨e, m', hem, hek, hge, hmap⟩
      refine ⟨e, (kv.1, kv.2) :: m', by simp [hem], hek, ?_, by simp [hmap]⟩
      unfold getExistingProvider
      rw [if_neg hk, hge]

theorem getExisting_not_found : ∀ (m : List (List Char × PoolEntry))
    (k : LLMProvider) (now : Nat), (∀ e ∈ m, e.2.inst.kind ≠ k) →
    getExistingProvider m k now = (none, m) := by
  intro m
  induction m with
  | nil => intro k now _; rfl
  | cons kv rest ih =>
    intro k now h
    unfold getExistingProvider
    rw [if_neg (h kv (by simp)), ih k now (fun e he => h e (by simp [he]))]

theorem oldestEntry_go : ∀ (m : List (List Char × PoolEntry))
    (k0 : List Char) (t0 : Nat),
    ∃ kid t,
      m.foldl
        (fun acc kv =>
          match acc with
          | none => some (kv.1, kv.2.lastUsed)
          | some (bestId, bestTime) =>
              if kv.2.lastUsed < bestTime then some (kv.1, kv.2.lastUsed)
              else some (bestId, bestTime)) (some (k0, t0)) = some (kid, t)
      ∧ ((kid = k0 ∧ t = t0) ∨ (∃ e ∈ m, e.1 = kid ∧ e.2.lastUsed = t))
      ∧ t ≤ t0 ∧ (∀ e ∈ m, t ≤ e.2.lastUsed) := by
  intro m
  induction m with
  | nil =>
    intro k0 t0
    exact ⟨k0, t0, rfl, Or.inl ⟨rfl, rfl⟩, Nat.le_refl _, by simp⟩
  | cons kv rest ih =>
    intro k0 t0
    rw [List.foldl_cons]
    by_cases hlt : kv.2.lastUsed < t0
    · rcases ih kv.1 kv.2.lastUsed with ⟨kid, t, heq, hmem, hle, hall⟩
      refine ⟨kid, t, ?_, ?_, ?_, ?_⟩
      · simpa [hlt] using heq
      · rcases hmem with ⟨hk, ht⟩ | ⟨e, he, hek, het⟩
        · exact Or.inr ⟨kv, by simp, hk.symm, ht.symm⟩
        · exact Or.inr ⟨e, by simp [he], hek, het⟩
      · omega
      · intro e he
        simp at he
        rcases he with he | he
        · subst he; exact hle
        · exact hall e he
    · rcases ih k0 t0 with ⟨kid, t, heq, hmem, hle, hall⟩
      refine ⟨kid, t, ?_, ?_, hle, ?_⟩
      · simpa [hlt] using heq
      · rcases hmem with hk | ⟨e, he, hek, het⟩
        · exact Or.inl hk
        · exact Or.inr ⟨e, by simp [he], hek, het⟩
      · intro e he
        simp at he
        rcases he with he | he
        · subst he; omega
        · exact hall e he

theorem oldestEntry_spec (m : List (List Char × PoolEntry)) (hm : m ≠ []) :
    ∃ kid t, oldestEntry m = some (kid, t)
      ∧ (∃ e ∈ m, e.1 = kid ∧ e.2.lastUsed = t)
      ∧ ∀ e ∈ m, t ≤ e.2.lastUsed := by
  cases m with
  | nil => exact absurd rfl hm
  | cons kv rest =>
    unfold oldestEntry
    rw [List.foldl_cons]
    rcases oldestEntry_go rest kv.1 kv.2.lastUsed with ⟨kid, t, heq, hmem, hle, hall⟩
    refine ⟨kid, t, heq, ?_, ?_⟩
    · rcases hmem with ⟨hk, ht⟩ | ⟨e, he, hek, het⟩
      · exact ⟨kv, by simp, hk.symm, ht.symm⟩
      · exact ⟨e, by simp [he], hek, het⟩
    · intro e he
      simp at he
      rcases he with he | he
      · subst he; exact hle
      · exact hall e he

theorem cleanupOldestProvider_failed (st : FactoryState) :
    (cleanupOldestProvider st).failedProviders = st.failedProviders := by
  unfold cleanupOldestProvider
  split
  · rfl
  · split <;> rfl

theorem cleanupOldestProvider_nextUid (st : FactoryState) :
    (cleanupOldestProvider st).nextUid = st.nextUid := by
  unfold cleanupOldestProvider
  split
  · rfl
  · split <;> rfl

theorem cleanupOldestProvider_length (st : FactoryState)
    (hne : st.activeProviders ≠ []) :
    (cleanupOldestProvider st).activeProviders.length + 1
      = st.activeProviders.length := by
  unfold cleanupOldestProvider
  rw [if_neg hne]
  rcases oldestEntry_spec st.activeProviders hne with ⟨kid, t, heq, hmem, _⟩
  rw [heq]
  rcases hmem with ⟨e, he, he1, _⟩
  exact mapDelete_length_mem st.activeProviders kid ⟨e, he, he1⟩

theorem createProviderCore_failed (s : AIExcerptSettings) (now : Nat)
    (st : FactoryState) :
    ((createProviderCore s now st).2).failedProviders = st.failedProviders := by
  unfold createProviderCore
  by_cases hlen : st.activeProviders.length ≥ maxActiveProviders
  · simp only [hlen, if_true]
    rcases hg : getExistingProvider st.activeProviders s.provider now with ⟨r, m'⟩
    cases r
    · simp only
      split <;> simp [cleanupOldestProvider_failed st]
    · rfl
  · simp only [hlen, if_false]
    split <;> rfl

theorem createProviderCore_length (s : AIExcerptSettings) (now : Nat)
    (st : FactoryState) (h : st.activeProviders.length ≤ maxActiveProviders) :
    ((createProviderCore s now st).2).activeProviders.length
      ≤ maxActiveProviders := by
  unfold createProviderCore
  by_cases hlen : st.activeProviders.length ≥ maxActiveProviders
  · simp only [hlen, if_true]
    rcases hg : getExistingProvider st.activeProviders s.provider now with ⟨r, m'⟩
    cases r
    · have hne : st.activeProviders ≠ [] := by
        intro hnil
        rw [hnil] at hlen
        simp [maxActiveProviders] at hlen
      have hclen := cleanupOldestProvider_length st hne
      simp only
      split
      · dsimp only
        omega
      · dsimp only
        refine le_trans (mapSet_length_le _ _ _) ?_
        omega
    · have hg2 := getExistingProvider_length st.activeProviders s.provider now
      rw [hg] at hg2
      simpa [hg2] using h
  · simp only [hlen, if_false]
    push_neg at hlen
    split
    · exact h
    · dsimp only
      refine le_trans (mapSet_length_le _ _ _) ?_
      omega

theorem mem_setAddKind_self (s : List LLMProvider) (k : LLMProvider) :
    k ∈ setAddKind s k := by
  unfold setAddKind
  split
  · assumption
  · simp

theorem mem_setAddKind_of_mem (s : List LLMProvider) (k j : LLMProvider)
    (h : j ∈ s) : j ∈ setAddKind s k := by
  unfold setAddKind
  split
  · exact h
  · simp [h]

theorem releaseGo_length (p : ProviderInst) (now : Nat) :
    ∀ (m : List (List Char × PoolEntry)), (releaseGo p now m).length = m.length := by
  intro m
  induction m with
  | nil => rfl
  | cons kv rest ih =>
    unfold releaseGo
    split
    · simp
    · simp [ih]

theorem releaseProvider_inv (st : FactoryState) (p : ProviderInst) (now : Nat)
    (h : PoolInv st) : PoolInv (releaseProvider st p now) := by
  refine ⟨?_, h.2⟩
  show (releaseGo p now st.activeProviders).length ≤ maxActiveProviders
  rw [releaseGo_length]
  exact h.1

theorem reportProviderFailure_inv (st : FactoryState) (k : LLMProvider)
    (now : Nat) (h : PoolInv st) : PoolInv (reportProviderFailure st k now) := by
  refine ⟨h.1, ?_⟩
  intro j hj
  by_cases hjk : j = k
  · subst hjk
    exact mem_setAddKind_self _ j
  · apply mem_setAddKind_of_mem
    apply h.2 j
    simpa [reportProviderFailure, setProviderCooldown, hjk] using hj

theorem poolInv_cooldown_false (st : FactoryState) (h : PoolInv st)
    (k : LLMProvider) (hfail : k ∉ st.failedProviders) (now : Nat) :
    isProviderInCooldown st k now = false := by
  unfold isProviderInCooldown
  rcases hc : st.providerCooldowns k with _ | u
  · rfl
  · exact absurd (h.2 k (by rw [hc]; simp)) hfail

theorem createProvider_inv (s : AIExcerptSettings) (now : Nat)
    (st : FactoryState) (h : PoolInv st) :
    PoolInv ((createProvider s now st).2) := by
  unfold createProvider
  by_cases hfail : s.provider ∈ st.failedProviders
  · simpa [hfail] using h
  · have hcd := poolInv_cooldown_false st h s.provider hfail now
    simp only [hfail, if_false, hcd, Bool.false_eq_true]
    refine ⟨createProviderCore_length s now st h.1, ?_⟩
    rw [createProviderCore_cooldowns, createProviderCore_failed]
    exact h.2

theorem runOps_inv_aux : ∀ (ops : List FactoryOp) (st : FactoryState),
    PoolInv st → PoolInv (runOps ops st) := by
  intro ops
  induction ops with
  | nil => intro st h; exact h
  | cons op rest ih =>
    intro st h
    show PoolInv (List.foldl runOp (runOp st op) rest)
    apply ih
    cases op with
    | create s now => exact createProvider_inv s now st h
    | release p now => exact releaseProvider_inv st p now h
    | report k now => exact reportProviderFailure_inv st k now h

/-- A second primary configuration: OpenAI primary, both keys set. -/
def openaiPrimarySettings : AIExcerptSettings :=
  { provider := .openai
    claudeApiKey := "ck".data
    claudeModel := "m1".data
    openaiApiKey := "ok1".data
    openaiModel := "m2".data
    tagPfx := [] }

/-- Claude primary with a different model (a distinct kind/model id). -/
def claudeSecondSettings : AIExcerptSettings :=
  { provider := .claude
    claudeApiKey := "ck".data
    claudeModel := "m3".data
    openaiApiKey := "ok1".data
    openaiModel := "m2".data
    tagPfx := [] }

/-- A pool holding one Claude and one OpenAI instance (size 2). -/
def c3ReuseState : FactoryState :=
  runOps [.create sampleSettings 0, .create openaiPrimarySettings 1]
    initialFactoryState

/-- A pool holding two Claude instances of different models (size 2). -/
def c3EvictState : FactoryState :=
  runOps [.create sampleSettings 0, .create claudeSecondSettings 1]
    initialFactoryState

/-- Claim C3 (amended): (1) across every sequence of `createProvider`,
`releaseProvider` and `reportProviderFailure` operations from the
initial state, the pool never holds more than `maxActiveProviders = 2`
entries (`createFallbackProvider` is excluded: it can exceed the bound —
see the counterexample); (2) when the bound is reached and a provider of
a kind already pooled is requested, an existing same-kind instance is
returned and the pool's entries (ids and instances) are unchanged;
(3) when the bound is reached and no same-kind instance exists (with a
configured key), the entry with the smallest `lastUsed` — the
least-recently-used — is evicted and the new instance is stored. -/
theorem c3_pool_bound_reuse_and_lru :
    (∀ ops : List FactoryOp,
      (runOps ops initialFactoryState).activeProviders.length ≤ maxActiveProviders)
    ∧ (∀ (s : AIExcerptSettings) (now : Nat) (st : FactoryState),
        s.provider ∉ st.failedProviders →
        isProviderInCooldown st s.provider now = false →
        st.activeProviders.length ≥ maxActiveProviders →
        (∃ e ∈ st.activeProviders, e.2.inst.kind = s.provider) →
        ∃ e ∈ st.activeProviders, e.2.inst.kind = s.provider ∧
          (createProvider s now st).1 = some e.2.inst ∧
          ((createProvider s now st).2).activeProviders.map
              (fun kv => (kv.1, kv.2.inst))
            = st.activeProviders.map (fun kv => (kv.1, kv.2.inst)))
    ∧ (∀ (s : AIExcerptSettings) (now : Nat) (st : FactoryState),
        s.provider ∉ st.failedProviders →
        isProviderInCooldown st s.provider now = false →
        st.activeProviders.length ≥ maxActiveProviders →
        (∀ e ∈ st.activeProviders, e.2.inst.kind ≠ s.provider) →
        apiKeyFor s s.provider ≠ [] →
        ∃ kid t, (∃ e ∈ st.activeProviders, e.1 = kid ∧ e.2.lastUsed = t)
          ∧ (∀ e ∈ st.activeProviders, t ≤ e.2.lastUsed)
          ∧ (createProvider s now st).1 = some ⟨s.provider, st.nextUid⟩
          ∧ ((createProvider s now st).2).activeProviders
              = mapSet (mapDelete st.activeProviders kid) (getProviderId s)
                  { inst := ⟨s.provider, st.nextUid⟩, lastUsed := now,
                    id := getProviderId s }) := by
  refine ⟨?_, ?_, ?_⟩
  · intro ops
    refine (runOps_inv_aux ops initialFactoryState ⟨?_, ?_⟩).1
    · simp [initialFactoryState, maxActiveProviders]
    · intro k hk
      simp [initialFactoryState] at hk
  · intro s now st hfail hcool hlen hex
    have hcp : createProvider s now st = createProviderCore s now st := by
      unfold createProvider
      simp [hfail, hcool]
    rcases getExisting_found st.activeProviders s.provider now hex with
      ⟨e, m', hem, hek, hge, hmap⟩
    have hcore : createProviderCore s now st
        = (some e.2.inst, { st with activeProviders := m' }) := by
      simp only [createProviderCore, if_pos hlen, hge]
    refine ⟨e, hem, hek, ?_, ?_⟩
    · rw [hcp, hcore]
    · rw [hcp, hcore]
      exact hmap
  · intro s now st hfail hcool hlen hnone hkey
    have hcp : createProvider s now st = createProviderCore s now st := by
      unfold createProvider
      simp [hfail, hcool]
    have hne : st.activeProviders ≠ [] := by
      intro h0
      rw [h0] at hlen
      simp [maxActiveProviders] at hlen
    rcases oldestEntry_spec st.activeProviders hne with ⟨kid, t, heq, hmem, hmin⟩
    have hgn := getExisting_not_found st.activeProviders s.provider now hnone
    have hclean : cleanupOldestProvider st
        = { st with activeProviders := mapDelete st.activeProviders kid } := by
      unfold cleanupOldestProvider
      rw [if_neg hne, heq]
    have hcore : createProviderCore s now st
        = (some ⟨s.provider, st.nextUid⟩,
           { st with
              activeProviders :=
                mapSet (mapDelete st.activeProviders kid) (getProviderId s)
                  { inst := ⟨s.provider, st.nextUid⟩, lastUsed := now,
                    id := getProviderId s }
              nextUid := st.nextUid + 1 }) := by
      simp only [createProviderCore, if_pos hlen, hgn, hclean, if_neg hkey]
    refine ⟨kid, t, hmem, hmin, ?_, ?_⟩ <;> rw [hcp, hcore]

/-- Claim C3, counterexample: from a full pool of 2 instances, a single
`createFallbackProvider` call stores a third instance — the bound is not
maintained across `createFallbackProvider`. -/
theorem c3_counterexample_fallback_exceeds_bound :
    List.length
        ((createFallbackProvider sampleSettings .claude 5 c3ReuseState).2).activeProviders
      = 3
    ∧ maxActiveProviders = 2 := by
  constructor <;> decide

/-- Witness for `c3_pool_bound_reuse_and_lru`: the bound after a
concrete operation sequence; reuse of the pooled Claude instance when
Claude is requested against a full pool; LRU eviction when OpenAI is
requested against a full all-Claude pool. -/
theorem c3_pool_bound_reuse_and_lru_witness :
    (runOps [.create sampleSettings 0, .create openaiPrimarySettings 1,
        .report .claude 2] initialFactoryState).activeProviders.length
      ≤ maxActiveProviders
    ∧ (∃ e ∈ c3ReuseState.activeProviders,
        e.2.inst.kind = sampleSettings.provider ∧
        (createProvider sampleSettings 7 c3ReuseState).1 = some e.2.inst ∧
        ((createProvider sampleSettings 7 c3ReuseState).2).activeProviders.map
            (fun kv => (kv.1, kv.2.inst))
          = c3ReuseState.activeProviders.map (fun kv => (kv.1, kv.2.inst)))
    ∧ (∃ kid t,
        (∃ e ∈ c3EvictState.activeProviders, e.1 = kid ∧ e.2.lastUsed = t)
        ∧ (∀ e ∈ c3EvictState.activeProviders, t ≤ e.2.lastUsed)
        ∧ (createProvider openaiPrimarySettings 7 c3EvictState).1
            = some ⟨openaiPrimarySettings.provider, c3EvictState.nextUid⟩
        ∧ ((createProvider openaiPrimarySettings 7 c3EvictState).2).activeProviders
            = mapSet (mapDelete c3EvictState.activeProviders kid)
                (getProviderId openaiPrimarySettings)
                { inst := ⟨openaiPrimarySettings.provider, c3EvictState.nextUid⟩,
                  lastUsed := 7, id := getProviderId openaiPrimarySettings }) := by
  refine ⟨c3_pool_bound_reuse_and_lru.1 _, ?_, ?_⟩
  · exact c3_pool_bound_reuse_and_lru.2.1 sampleSettings 7 c3ReuseState
      (by decide) (by decide) (by decide) (by decide)
  · exact c3_pool_bound_reuse_and_lru.2.2 openaiPrimarySettings 7 c3EvictState
      (by decide) (by decide) (by decide) (by decide) (by decide)

end AITagger
